import Mathlib

/-!
Verification of the card-game engine of this repository.

The frontend game client (`frontend/index.ts`, class `CardGame`) holds the
match state and all gameplay operations; the server (`src/index.ts`, class
`GameDataServer`) persists snapshots and drives the computer player through
a schema-validated, retrying decision oracle.  Both are embedded below as
pure Lean functions over explicit state values.

Rendering-only effects of the source (PixiJS containers, positioning,
status text, face-up/face-down flips, animation) are outside the core model
and are not represented.  The `selected` flag on a card is represented,
since gameplay logic reads it.
-/

/-- The four suits of `Card.suit`. -/
inductive Suit where
  | hearts
  | diamonds
  | clubs
  | spades
deriving DecidableEq, Repr

/-- Frontend `Card` (interface `Card` in `frontend/index.ts`): suit, rank
2..14 (11=Jack, 12=Queen, 13=King, 14=Ace), and the `selected` UI flag that
gameplay logic reads.  The PixiJS `container` and the `hovered` flag are
rendering-only and not modelled. -/
structure Card where
  suit : Suit
  rank : Nat
  selected : Bool
deriving DecidableEq, Repr

/-- Placement kind tag: `'single' | 'multiple' | 'straight'`. -/
inductive PType where
  | single
  | multiple
  | straight
deriving DecidableEq, Repr

/-- Frontend `Placement`: a group of cards with its kind tag (`type` in the
source; named `ptype` here because `type` is reserved). -/
structure Placement where
  cards : List Card
  ptype : PType
deriving DecidableEq, Repr

/-- Ordering used by `[...cards].sort((a, b) => a.rank - b.rank)`. -/
def rankLe (a b : Card) : Prop := a.rank ≤ b.rank

instance : DecidableRel rankLe := fun a b => Nat.decLe a.rank b.rank

instance : IsTotal Card rankLe := ⟨fun a b => Nat.le_total a.rank b.rank⟩

instance : IsTrans Card rankLe := ⟨fun _ _ _ hab hbc => Nat.le_trans hab hbc⟩

/-- The copy-and-sort `[...cards].sort((a, b) => a.rank - b.rank)` of the
straight check (and the in-place sort of `playOnStack`): sort by ascending
rank.  The JS sort is stable on equal ranks; since no two distinct cards of
a deal share a rank-and-suit and every later use reads only ranks (or treats
the result as a set of cards), the tie order is immaterial and insertion
sort is used. -/
def sortByRank (cards : List Card) : List Card := cards.insertionSort rankLe

/-- The straight loop of `validatePlacement`: checks
`sorted[i].rank === sorted[i-1].rank + 1` for every adjacent pair of the
rank sequence. -/
def isConsecutive : List Nat → Bool
  | a :: b :: rest => (b == a + 1) && isConsecutive (b :: rest)
  | _ => true

/-- `CardGame.validatePlacement` (frontend/index.ts:2092-2114): empty is
invalid; a singleton is a `single`; all ranks equal to the first card is a
`multiple`; otherwise a group of 3+ whose sorted ranks are strictly
consecutive is a `straight`; anything else is invalid. -/
def validatePlacement : List Card → Option Placement
  | [] => none
  | [c] => some ⟨[c], PType.single⟩
  | c :: c2 :: rest =>
    if (c :: c2 :: rest).all (fun x => x.rank == c.rank) then
      some ⟨c :: c2 :: rest, PType.multiple⟩
    else if 3 ≤ (c :: c2 :: rest).length then
      if isConsecutive ((sortByRank (c :: c2 :: rest)).map (fun x => x.rank)) then
        some ⟨c :: c2 :: rest, PType.straight⟩
      else none
    else none

/-- The `reduce((min, card) => card.rank < min.rank ? card : min)` of
`canPlayOnStack`, with the first array element as the initial accumulator. -/
def minRankCard : Card → List Card → Card
  | m, [] => m
  | m, c :: rest => minRankCard (if c.rank < m.rank then c else m) rest

/-- `CardGame.canPlayOnStack` (frontend/index.ts:2116-2129), with the stack
passed explicitly instead of read from `this`.  A JS `reduce` without an
initial value throws on an empty array; a `Placement` produced by
`validatePlacement` is never empty, and the impossible empty case is mapped
to `true`. -/
def canPlayOnStack (placement : Placement) (stack : List Card) : Bool :=
  if stack.isEmpty then true
  else
    match stack.getLast?, placement.cards with
    | some topCard, c :: rest =>
      let lowestCard := minRankCard c rest
      if lowestCard.rank == 2 || lowestCard.rank == 14 then true
      else decide (topCard.rank ≤ lowestCard.rank)
    | _, _ => true

section Examples

def c7h : Card := ⟨Suit.hearts, 7, false⟩
def c7s : Card := ⟨Suit.spades, 7, false⟩
def c7c : Card := ⟨Suit.clubs, 7, false⟩
def c5d : Card := ⟨Suit.diamonds, 5, false⟩
def c6d : Card := ⟨Suit.diamonds, 6, false⟩
def c8s : Card := ⟨Suit.spades, 8, false⟩

example : validatePlacement [c7h] = some ⟨[c7h], PType.single⟩ := by decide
example : (validatePlacement [c7h, c7s, c7c]).map Placement.ptype = some PType.multiple := by
  decide
example : (validatePlacement [c5d, c6d, c7s]).map Placement.ptype = some PType.straight := by
  decide
example : validatePlacement [c5d, c6d, c8s] = none := by decide
example : validatePlacement [c7h, c7s, c8s] = none := by decide
example : validatePlacement ([] : List Card) = none := by decide

def cJack : Card := ⟨Suit.hearts, 11, false⟩
def cQueen : Card := ⟨Suit.hearts, 12, false⟩
def cKing : Card := ⟨Suit.hearts, 13, false⟩
def cAce : Card := ⟨Suit.hearts, 14, false⟩
def cTen : Card := ⟨Suit.clubs, 10, false⟩

example : canPlayOnStack ⟨[cJack], PType.single⟩ [cJack] = true := by decide
example : canPlayOnStack ⟨[cTen, cJack, cQueen], PType.straight⟩ [cJack] = false := by decide
example : canPlayOnStack ⟨[cQueen, cKing, cAce], PType.straight⟩ [cJack] = true := by decide

end Examples

/-! ## Frontend game state and operations -/

/-- `GamePhase` (frontend/index.ts): one value per match. -/
inductive GamePhase where
  | selectingHiddenReserve
  | selectingVisibleReserve
  | playerTurn
  | computerTurn
  | gameOver
deriving DecidableEq, Repr

/-- The mutable fields of class `CardGame` that constitute game state
(frontend/index.ts:978-987), mirrored by the serialized `GameState`
(frontend/index.ts:903-914).  `discard` is the ghost container of cards
permanently removed from play by `discardStack` (the source destroys their
rendering containers and drops them from every tracked array; the
specification calls this set the discard pile). -/
structure GState where
  deck : List Card
  stack : List Card
  playerHand : List Card
  playerHiddenReserve : List Card
  playerVisibleReserve : List Placement
  computerHand : List Card
  computerHiddenReserve : List Card
  computerVisibleReserve : List Placement
  discard : List Card
  gamePhase : GamePhase
deriving DecidableEq, Repr

/-- Which hand a hand-taking operation acts on (the source passes
`this.playerHand` or `this.computerHand` by reference and compares with
`===`). -/
inductive Player where
  | human
  | computer
deriving DecidableEq, Repr

/-- Ordering used by `CardGame.sortHand`: ascending rank, ties by the
lexicographic order of the suit name (`a.suit.localeCompare(b.suit)`:
clubs < diamonds < hearts < spades). -/
def suitOrd : Suit → Nat
  | Suit.clubs => 0
  | Suit.diamonds => 1
  | Suit.hearts => 2
  | Suit.spades => 3

def handLe (a b : Card) : Prop :=
  a.rank < b.rank ∨ (a.rank = b.rank ∧ suitOrd a.suit ≤ suitOrd b.suit)

instance : DecidableRel handLe := fun a b => by unfold handLe; infer_instance

/-- `CardGame.sortHand` (frontend/index.ts:2298-2303). -/
def sortHand (hand : List Card) : List Card := hand.insertionSort handLe

/-- `CardGame.playOnStack` (frontend/index.ts:2131-2143): sort the
placement's cards by ascending rank and push them onto the stack (the
face-up flip and animation are rendering-only). -/
def playOnStack (placement : Placement) (s : GState) : GState :=
  { s with stack := s.stack ++ sortByRank placement.cards }

/-- `CardGame.takeStack` (frontend/index.ts:2145-2160): every stack card is
pushed (with `selected` cleared) onto the given hand, the stack is emptied,
and the player's hand is re-sorted for display. -/
def takeStack (p : Player) (s : GState) : GState :=
  let moved := s.stack.map (fun c => { c with selected := false })
  match p with
  | Player.human =>
    { s with playerHand := sortHand (s.playerHand ++ moved), stack := [] }
  | Player.computer =>
    { s with computerHand := s.computerHand ++ moved, stack := [] }

/-- `CardGame.discardStack` (frontend/index.ts:2162-2165): remove every
stack card from play.  The source destroys the cards' rendering containers;
the model relocates them to the ghost `discard` container. -/
def discardStack (s : GState) : GState :=
  { s with discard := s.discard ++ s.stack, stack := [] }

/-- Cards of every placement of a visible reserve, in order. -/
def reserveCards (r : List Placement) : List Card := (r.map Placement.cards).flatten

/-- `CardGame.takeVisibleReserve` (frontend/index.ts:2167-2182): push every
card of every visible-reserve placement onto the given hand and empty the
reserve (the computer-side face-down flip is rendering-only). -/
def takeVisibleReserve (p : Player) (s : GState) : GState :=
  match p with
  | Player.human =>
    { s with playerHand := s.playerHand ++ reserveCards s.playerVisibleReserve,
             playerVisibleReserve := [] }
  | Player.computer =>
    { s with computerHand := s.computerHand ++ reserveCards s.computerVisibleReserve,
             computerVisibleReserve := [] }

/-- The `while (hand.length < 3 && this.deck.length > 0)` loop of
`CardGame.drawToMinimum`, with explicit fuel: each iteration grows the hand
by exactly one card and the guard requires `hand.length < 3`, so the loop
body can run at most three times and fuel 3 is exact. -/
def drawLoopGo : Nat → List Card → List Card → List Card × List Card
  | 0, hand, deck => (hand, deck)
  | fuel + 1, hand, deck =>
    if h : hand.length < 3 ∧ deck ≠ [] then
      drawLoopGo fuel (hand ++ [deck.getLast h.2]) deck.dropLast
    else (hand, deck)

/-- `deck.pop()` takes from the end of the deck array. -/
def drawLoop (hand deck : List Card) : List Card × List Card := drawLoopGo 3 hand deck

/-- `CardGame.drawToMinimum` (frontend/index.ts:2184-2202): refill the hand
to 3 from the deck while possible; if the hand is empty afterwards, absorb
the visible reserve; the player's hand is then re-sorted for display. -/
def drawToMinimum (p : Player) (s : GState) : GState :=
  match p with
  | Player.human =>
    let hd := drawLoop s.playerHand s.deck
    let s1 := { s with playerHand := hd.1, deck := hd.2 }
    let s2 := if s1.playerHand.length = 0 then takeVisibleReserve Player.human s1 else s1
    { s2 with playerHand := sortHand s2.playerHand }
  | Player.computer =>
    let hd := drawLoop s.computerHand s.deck
    let s1 := { s with computerHand := hd.1, deck := hd.2 }
    if s1.computerHand.length = 0 then takeVisibleReserve Player.computer s1 else s1

/-- `CardGame.checkWinCondition` (frontend/index.ts:2204-2228): the player
(checked first) or the computer wins when hand, visible reserve and hidden
reserve are all empty; on a win the phase becomes game-over.  Returns the
updated state and the boolean result. -/
def checkWinCondition (s : GState) : GState × Bool :=
  if s.playerHand.length = 0 ∧ s.playerVisibleReserve.length = 0 ∧
      s.playerHiddenReserve.length = 0 then
    ({ s with gamePhase := GamePhase.gameOver }, true)
  else if s.computerHand.length = 0 ∧ s.computerVisibleReserve.length = 0 ∧
      s.computerHiddenReserve.length = 0 then
    ({ s with gamePhase := GamePhase.gameOver }, true)
  else (s, false)

/-- `CardGame.startPlayerTurn` (frontend/index.ts:1994-2001): set the phase
(status text is rendering-only). -/
def startPlayerTurn (s : GState) : GState := { s with gamePhase := GamePhase.playerTurn }

/-- `CardGame.startComputerTurn` (frontend/index.ts:2003-2008): set the
phase and refill the computer hand (`saveGameState` then triggers the next
`action-req`). -/
def startComputerTurn (s : GState) : GState :=
  drawToMinimum Player.computer { s with gamePhase := GamePhase.computerTurn }

/-- Whether a placement contains an Ace:
`placement.cards.some(c => c.rank === 14)`. -/
def hasAce (cards : List Card) : Bool := cards.any (fun c => c.rank == 14)

/-- `CardGame.playSelectedCards` (frontend/index.ts:1938-1972): validate the
selected cards, play them on the stack, remove them from the hand, refill;
an Ace-containing placement then clears the whole stack from play and
leaves the phase unchanged (the same player goes again); otherwise the win
condition is checked and, absent a win, the computer's turn starts. -/
def playSelectedCards (s : GState) : GState :=
  let selected := s.playerHand.filter (fun c => c.selected)
  match validatePlacement selected with
  | none => s
  | some placement =>
    if !canPlayOnStack placement s.stack then s
    else
      let s1 := playOnStack placement s
      let s2 := { s1 with playerHand := s1.playerHand.filter (fun c => !c.selected) }
      let s3 := drawToMinimum Player.human s2
      if hasAce placement.cards then
        discardStack s3
      else
        let cw := checkWinCondition s3
        if cw.2 then cw.1 else startComputerTurn cw.1

/-- Clearing the `selected` flag of a group of card objects
(`forEach(card => card.selected = false)`).  Cards whose flag is already
false are unchanged, so mapping the whole list is extensionally the same as
mutating only the flagged members. -/
def clearFlags (cards : List Card) : List Card :=
  cards.map (fun c => { c with selected := false })

/-- One iteration of the `for` loop of `CardGame.computerMakesVisibleReserve`
(frontend/index.ts:1974-1992): pop the last card of the computer hand, add
it as a singleton visible-reserve placement, refill the hand.  On an empty
hand the loop breaks; since this step is then the identity, running the
remaining iterations as identities is equivalent. -/
def cmvrStep (s : GState) : GState :=
  match s.computerHand.getLast? with
  | none => s
  | some card =>
    drawToMinimum Player.computer
      { s with computerHand := s.computerHand.dropLast,
               computerVisibleReserve := s.computerVisibleReserve ++ [⟨[card], PType.single⟩] }

/-- `CardGame.computerMakesVisibleReserve`: three loop iterations. -/
def computerMakesVisibleReserve (s : GState) : GState := cmvrStep (cmvrStep (cmvrStep s))

/-- `CardGame.completeHiddenReserveSelection` (frontend/index.ts:1879-1907):
with exactly 3 selected cards, they become the hidden reserve (flags
cleared), the computer builds its visible reserve, and the phase advances. -/
def completeHiddenReserveSelection (s : GState) : GState :=
  let selected := s.playerHand.filter (fun c => c.selected)
  if selected.length ≠ 3 then s
  else
    let s1 := { s with playerHiddenReserve := clearFlags selected,
                       playerHand := s.playerHand.filter (fun c => !c.selected) }
    { computerMakesVisibleReserve s1 with gamePhase := GamePhase.selectingVisibleReserve }

/-- `CardGame.completeVisibleReservePlacement` (frontend/index.ts:1909-1936):
push the validated selection (flags cleared by the `forEach` mutation, which
also affects the hand's shared card objects) as a reserve placement, remove
those cards from the hand (`filter(c => !selected.includes(c))`), refill,
and start the player's turn once the third placement is made. -/
def completeVisibleReservePlacement (s : GState) : GState :=
  let selected := s.playerHand.filter (fun c => c.selected)
  match validatePlacement selected with
  | none => s
  | some placement =>
    if 3 ≤ s.playerVisibleReserve.length then s
    else
      let cc := clearFlags placement.cards
      let s1 := { s with
        playerVisibleReserve := s.playerVisibleReserve ++ [{ placement with cards := cc }],
        playerHand := (clearFlags s.playerHand).filter (fun c => !(cc.contains c)) }
      let s2 := drawToMinimum Player.human s1
      if s2.playerVisibleReserve.length = 3 then startPlayerTurn s2 else s2

/-- The oracle's action as the frontend receives it (interface `Action`,
frontend/index.ts:966-969; named `OAction` here because Mathlib already
declares `Action`). -/
inductive ActKind where
  | play
  | stack
  | hidden
deriving DecidableEq, Repr

structure OAction where
  kind : ActKind
  indexes : Option (List Nat)
deriving DecidableEq, Repr

/-- `computerHand.filter((c, index) => action.indexes!.includes(index))`. -/
def filterByIndexes (hand : List Card) (idxs : List Nat) : List Card :=
  (hand.enum.filter (fun p => idxs.contains p.1)).map Prod.snd

/-- The common tail of `CardGame.computerTurn` after a non-returning switch
branch: check the win condition, otherwise start the player's turn. -/
def finishComputerTurn (s : GState) : GState :=
  let cw := checkWinCondition s
  if cw.2 then cw.1 else startPlayerTurn cw.1

/-- `CardGame.computerTurn` (frontend/index.ts:2010-2090).  In the `play`
branch the source removes the indexed cards from the hand and then asserts
`validatePlacement(...)!` non-null; on a null placement it throws there, so
the model returns the state with the hand already reduced.  Both Ace
branches return before the win check and phase change, leaving the phase on
computer-turn so that saving triggers another `action-req`. -/
def computerTurn (a : OAction) (s : GState) : GState :=
  match a.kind with
  | ActKind.play =>
    let selectedCards := filterByIndexes s.computerHand (a.indexes.getD [])
    let s1 := { s with computerHand := s.computerHand.filter (fun c => !(selectedCards.contains c)) }
    match validatePlacement selectedCards with
    | none => s1
    | some placement =>
      let s2 := playOnStack placement s1
      if hasAce placement.cards then
        drawToMinimum Player.computer (discardStack s2)
      else
        finishComputerTurn (drawToMinimum Player.computer s2)
  | ActKind.stack => finishComputerTurn (takeStack Player.computer s)
  | ActKind.hidden =>
    let hiddenIndex := (a.indexes.getD []).headD 0
    match s.computerHiddenReserve[hiddenIndex]? with
    | none => finishComputerTurn s
    | some card =>
      let s1 := { s with computerHiddenReserve := s.computerHiddenReserve.eraseIdx hiddenIndex }
      let placement : Placement := ⟨[card], PType.single⟩
      if canPlayOnStack placement s1.stack then
        let s2 := playOnStack placement s1
        if card.rank == 14 then discardStack s2
        else finishComputerTurn s2
      else
        finishComputerTurn
          (takeStack Player.computer { s1 with computerHand := s1.computerHand ++ [card] })

/-- `card.selected = !card.selected` on a card of the player's hand (the
three selection handlers of frontend/index.ts:1805-1861; their other
effects are button visibility and status text). -/
def toggleSelect (card : Card) (s : GState) : GState :=
  { s with playerHand :=
      s.playerHand.map (fun c => if c = card then { c with selected := !c.selected } else c) }

/-- `CardGame.handleCardClick` (frontend/index.ts:1772-1803): a hand card
toggles selection in the three selection phases; otherwise, during the
player's turn, clicking the stack's top card takes the stack and starts the
computer's turn, and clicking a hidden-reserve card reveals it into the
hand only when hand, deck and visible reserve are all empty. -/
def handleCardClick (card : Card) (s : GState) : GState :=
  if s.playerHand.contains card then
    match s.gamePhase with
    | GamePhase.selectingHiddenReserve => toggleSelect card s
    | GamePhase.selectingVisibleReserve => toggleSelect card s
    | GamePhase.playerTurn => toggleSelect card s
    | _ => s
  else if s.gamePhase = GamePhase.playerTurn then
    if s.stack.getLast? = some card then
      startComputerTurn (takeStack Player.human s)
    else if s.playerHand.length = 0 ∧ s.deck.length = 0 ∧
        s.playerVisibleReserve.length = 0 ∧ s.playerHiddenReserve.contains card then
      { s with playerHand := s.playerHand ++ [card],
               playerHiddenReserve := s.playerHiddenReserve.filter (fun c => !(c == card)) }
    else s
  else s

/-- `CardGame.handlePlayButton` (frontend/index.ts:1869-1877). -/
def handlePlayButton (s : GState) : GState :=
  match s.gamePhase with
  | GamePhase.selectingHiddenReserve => completeHiddenReserveSelection s
  | GamePhase.selectingVisibleReserve => completeVisibleReservePlacement s
  | GamePhase.playerTurn => playSelectedCards s
  | _ => s

/-- The 52 cards created by `CardGame.initializeDeck`
(frontend/index.ts:1627-1645) before the Fisher-Yates shuffle: each suit in
order, ranks 2..14. -/
def standardDeck : List Card :=
  ([Suit.hearts, Suit.diamonds, Suit.clubs, Suit.spades].map
    (fun su => (List.range' 2 13).map
      (fun r => ({ suit := su, rank := r, selected := false } : Card)))).flatten

/-- One iteration of the deal loop of `CardGame.dealInitialCards`
(frontend/index.ts:1761-1770): `deck.pop()` into the player hand, then into
the computer hand.  At initialization the deck has 52 cards, so the
undefined-pop cases are unreachable. -/
def dealStep (s : GState) : GState :=
  match s.deck.getLast? with
  | none => s
  | some c1 =>
    let s1 := { s with deck := s.deck.dropLast, playerHand := s.playerHand ++ [c1] }
    match s1.deck.getLast? with
    | none => s1
    | some c2 =>
      { s1 with deck := s1.deck.dropLast, computerHand := s1.computerHand ++ [c2] }

/-- `CardGame.dealInitialCards`: nine deal iterations, then the player hand
is sorted for display. -/
def dealInitialCards (s : GState) : GState :=
  let s9 := (List.range 9).foldl (fun st _ => dealStep st) s
  { s9 with playerHand := sortHand s9.playerHand }

/-- The state right after `initializeDeck` and `dealInitialCards`, with the
shuffled deck passed in (the Fisher-Yates shuffle produces a permutation of
`standardDeck`). -/
def initState (deck0 : List Card) : GState :=
  dealInitialCards
    { deck := deck0, stack := [], playerHand := [], playerHiddenReserve := [],
      playerVisibleReserve := [], computerHand := [], computerHiddenReserve := [],
      computerVisibleReserve := [], discard := [], gamePhase := GamePhase.selectingHiddenReserve }

/-- The external events that mutate game state: a pointer click on a card,
the play button, and the two websocket messages that resolve a computer
turn (`action-res` applies the action, `action-error` falls back to a stack
pickup, frontend/index.ts:1166-1178). -/
inductive GAction where
  | click (card : Card)
  | playButton
  | actionRes (a : OAction)
  | actionError
deriving DecidableEq, Repr

def stepFn (act : GAction) (s : GState) : GState :=
  match act with
  | GAction.click card => handleCardClick card s
  | GAction.playButton => handlePlayButton s
  | GAction.actionRes a => computerTurn a s
  | GAction.actionError => startPlayerTurn (takeStack Player.computer s)

def runGame (deck0 : List Card) (acts : List GAction) : GState :=
  acts.foldl (fun s a => stepFn a s) (initState deck0)

/-- An `action-res` event is well formed when a `play` action denotes a
valid placement; the server's semantic validation is meant to guarantee
this before the action reaches the frontend (on a null placement the
frontend throws mid-handler with the played cards already removed from the
hand). -/
def stepOK (act : GAction) (s : GState) : Prop :=
  match act with
  | GAction.actionRes a =>
    a.kind = ActKind.play →
      validatePlacement (filterByIndexes s.computerHand (a.indexes.getD [])) ≠ none
  | _ => True

def trajOK : GState → List GAction → Prop
  | _, [] => True
  | s, a :: rest => stepOK a s ∧ trajOK (stepFn a s) rest

/-! ## Server: `GameDataServer` (src/index.ts) -/

/-- `SerializedCard` (src/index.ts:269-272): a card without its rendering
container or UI flags. -/
structure SCard where
  suit : Suit
  rank : Nat
deriving DecidableEq, Repr

/-- `SerializedPlacement` (src/index.ts:274-277). -/
structure SPlacement where
  cards : List SCard
  ptype : PType
deriving DecidableEq, Repr

/-- `ChatMessage` (src/index.ts:286-289). -/
structure ChatMsg where
  role : String
  content : String
deriving DecidableEq, Repr

/-- The persisted `GameState` (src/index.ts:291-303). -/
structure GameStateS where
  deck : List SCard
  stack : List SCard
  playerHand : List SCard
  playerHiddenReserve : List SCard
  playerVisibleReserve : List SPlacement
  computerHand : List SCard
  computerHiddenReserve : List SCard
  computerVisibleReserve : List SPlacement
  gamePhase : GamePhase
  chatHistory : List ChatMsg
deriving DecidableEq, Repr

def rankLeS (a b : SCard) : Prop := a.rank ≤ b.rank

instance : DecidableRel rankLeS := fun a b => Nat.decLe a.rank b.rank

instance : IsTotal SCard rankLeS := ⟨fun a b => Nat.le_total a.rank b.rank⟩

instance : IsTrans SCard rankLeS := ⟨fun _ _ _ hab hbc => Nat.le_trans hab hbc⟩

/-- `[...cards].sort((a, b) => a.rank - b.rank)` of the server validator. -/
def sortSByRank (cards : List SCard) : List SCard := cards.insertionSort rankLeS

/-- `GameDataServer.validatePlacement` (src/index.ts:568-590): same shape
rules as the frontend validator, but returning `valid` or a reason
string. -/
def validatePlacementS : List SCard → String
  | [] => "it is empty"
  | [_] => "valid"
  | c :: c2 :: rest =>
    if (c :: c2 :: rest).all (fun x => x.rank == c.rank) then "valid"
    else if 3 ≤ (c :: c2 :: rest).length then
      if isConsecutive ((sortSByRank (c :: c2 :: rest)).map (fun x => x.rank)) then "valid"
      else "is not a straight or multiple of a kind"
    else "is not a straight or multiple of a kind"

/-- A parsed JSON value, as produced by `JSON.parse` of the oracle's output
text. -/
inductive JValue where
  | jnull
  | jbool (b : Bool)
  | jnum (n : Int)
  | jstr (s : String)
  | jarr (items : List JValue)
  | jobj (fields : List (String × JValue))

/-- JS `typeof` for the parsed values (`typeof null` and arrays are
`object`). -/
def typeName : JValue → String
  | JValue.jnull => "object"
  | JValue.jbool _ => "boolean"
  | JValue.jnum _ => "number"
  | JValue.jstr _ => "string"
  | JValue.jarr _ => "object"
  | JValue.jobj _ => "object"

/-- First binding of a key in a JS object (duplicate keys cannot survive in
a JS object; the model looks up the first). -/
def jlookup (fields : List (String × JValue)) (key : String) : Option JValue :=
  match fields with
  | [] => none
  | (k, v) :: rest => if k == key then some v else jlookup rest key

def allowedKeys : List String := ["action", "indexes", "whyMoveIsValid"]

def validActions : List String := ["play", "stack", "hidden"]

/-- The `indexes` element loop of `validateResponseSchema`. -/
def checkIndexItems : Nat → List JValue → Option String
  | _, [] => none
  | i, v :: rest =>
    match v with
    | JValue.jnum _ => checkIndexItems (i + 1) rest
    | _ => some ("Property \x27indexes[" ++ toString i ++ "]\x27 must be a number, got "
        ++ typeName v)

/-- The action-specific presence checks at the end of
`validateResponseSchema`. -/
def checkActionIndexes (a : String) (indexes : Option (List JValue)) : Option String :=
  if a == "play" then
    match indexes with
    | none => some "Action \x27play\x27 requires non-empty \x27indexes\x27 array"
    | some items =>
      if items.length == 0 then some "Action \x27play\x27 requires non-empty \x27indexes\x27 array"
      else none
  else if a == "hidden" then
    match indexes with
    | none => some "Action \x27hidden\x27 requires \x27indexes\x27 array with exactly one element"
    | some items =>
      if items.length != 1 then
        some "Action \x27hidden\x27 requires \x27indexes\x27 array with exactly one element"
      else none
  else none

/-- `GameDataServer.validateResponseSchema` (src/index.ts:592-655): `none`
means the response matches the expected JSON schema exactly; `some err`
reports the first deviation, in the source's checking order. -/
def validateResponseSchema (j : JValue) : Option String :=
  match j with
  | JValue.jobj fields =>
    match fields.find? (fun kv => !(allowedKeys.contains kv.1)) with
    | some kv => some ("Unexpected property: " ++ kv.1)
    | none =>
      match jlookup fields "action" with
      | none => some "Missing required property: action"
      | some (JValue.jstr a) =>
        if !(validActions.contains a) then
          some "Property \x27action\x27 must be one of: play, stack, hidden"
        else
          match jlookup fields "whyMoveIsValid" with
          | none => some "Missing required property: whyMoveIsValid"
          | some (JValue.jstr _) =>
            match jlookup fields "indexes" with
            | some (JValue.jarr items) =>
              match checkIndexItems 0 items with
              | some err => some err
              | none => checkActionIndexes a (some items)
            | some v => some ("Property \x27indexes\x27 must be an array, got " ++ typeName v)
            | none => checkActionIndexes a none
          | some wv => some ("Property \x27whyMoveIsValid\x27 must be a string, got "
              ++ typeName wv)
      | some av => some ("Property \x27action\x27 must be a string, got " ++ typeName av)
  | _ => some "Response must be an object"

/-- The `action` field of a schema-valid response. -/
def jactionOf (j : JValue) : String :=
  match j with
  | JValue.jobj fields =>
    match jlookup fields "action" with
    | some (JValue.jstr s) => s
    | _ => ""
  | _ => ""

/-- The `indexes` field of a schema-valid response (all items are numbers
once the schema check passed). -/
def jindexesOf (j : JValue) : List Int :=
  match j with
  | JValue.jobj fields =>
    match jlookup fields "indexes" with
    | some (JValue.jarr items) =>
      items.filterMap (fun v => match v with | JValue.jnum n => some n | _ => none)
    | _ => []
  | _ => []

/-- `computerHand.filter((_card, index) => parsedResponse!.indexes?.includes(index))`
of the semantic `play` check. -/
def filterByJIndexes (hand : List SCard) (idxs : List Int) : List SCard :=
  (hand.enum.filter (fun p => idxs.contains (Int.ofNat p.1))).map Prod.snd

/-- One oracle attempt of the `action-req` retry loop, as seen by the
server: either a failure before a parsed response exists (AI-call exception,
empty output text, or unparseable JSON — each sets `lastError` and leaves
`parsedResponse` untouched), or a successfully parsed JSON reply. -/
inductive Attempt where
  | fail (err : String)
  | reply (j : JValue)

/-- The websocket message the `action-req` handler finally sends: an
`action-error` or an `action-res` carrying the parsed response. -/
inductive WsMsg where
  | actionError (err : String)
  | actionRes (j : JValue)

/-- The code after the retry loop (src/index.ts:846-860): a null
`parsedResponse` reports failure, anything else is sent as the action. -/
def finishOracle (pr : Option JValue) (lastError : String) : WsMsg :=
  match pr with
  | none => WsMsg.actionError ("AI failed after 5 attempts: " ++ lastError)
  | some j => WsMsg.actionRes j

/-- The `while (attempts++ < MAX_RETRIES)` loop of the `action-req` handler
(src/index.ts:714-860), folded over a script of oracle behaviours; returns
the final websocket message and the number of attempts consumed.  State per
iteration: remaining budget, the `parsedResponse` latch (reset to null only
by a schema failure; a semantic failure leaves the parsed reply latched),
and `lastError`. -/
def oracleGo (st : GameStateS) : Nat → Option JValue → String → List Attempt → WsMsg × Nat
  | 0, pr, le, _ => (finishOracle pr le, 0)
  | _ + 1, pr, le, [] => (finishOracle pr le, 0)
  | budget + 1, pr, _le, att :: rest =>
    match att with
    | Attempt.fail err =>
      let r := oracleGo st budget pr err rest
      (r.1, r.2 + 1)
    | Attempt.reply j =>
      match validateResponseSchema j with
      | some err =>
        let r := oracleGo st budget none ("Schema validation failed: " ++ err) rest
        (r.1, r.2 + 1)
      | none =>
        if jactionOf j == "play" then
          let valid := validatePlacementS (filterByJIndexes st.computerHand (jindexesOf j))
          if valid == "valid" then (WsMsg.actionRes j, 1)
          else
            let r := oracleGo st budget (some j) ("Invalid placement: " ++ valid) rest
            (r.1, r.2 + 1)
        else if jactionOf j == "hidden" then
          if 0 < st.computerHand.length then
            let r := oracleGo st budget (some j)
              "Tried to draw from hidden reserve with cards in hand" rest
            (r.1, r.2 + 1)
          else (WsMsg.actionRes j, 1)
        else (WsMsg.actionRes j, 1)

/-- The whole `action-req` decision: `MAX_RETRIES = 5`, `parsedResponse`
initially null, `lastError` initially empty.  `le` is unused below 5
attempts only through `finishOracle`. -/
def runOracle (st : GameStateS) (script : List Attempt) : WsMsg × Nat :=
  oracleGo st 5 none "" script

/-- Suit names as serialized. -/
def suitName : Suit → String
  | Suit.hearts => "hearts"
  | Suit.diamonds => "diamonds"
  | Suit.clubs => "clubs"
  | Suit.spades => "spades"

/-- Placement kind names as serialized. -/
def ptypeName : PType → String
  | PType.single => "single"
  | PType.multiple => "multiple"
  | PType.straight => "straight"

/-- `JSON.stringify` of a `SerializedCard` (object literal key order:
`suit`, `rank`). -/
def jsonSCard (c : SCard) : String :=
  "\x7b\"suit\":\"" ++ suitName c.suit ++ "\",\"rank\":" ++ toString c.rank ++ "\x7d"

def jsonArr (elems : List String) : String := "[" ++ String.intercalate "," elems ++ "]"

def jsonCards (l : List SCard) : String := jsonArr (l.map jsonSCard)

/-- `JSON.stringify` of a `SerializedPlacement` (key order: `cards`,
`type`). -/
def jsonSPlacement (p : SPlacement) : String :=
  "\x7b\"cards\":" ++ jsonCards p.cards ++ ",\"type\":\"" ++ ptypeName p.ptype ++ "\"\x7d"

def jsonPlacements (l : List SPlacement) : String := jsonArr (l.map jsonSPlacement)

/-- The state-view prompt the `action-req` handler sends to the decision
oracle (src/index.ts:695-712): the computer's full hand, the human hand
size, the stack, both visible reserves in full, both hidden-reserve counts,
and the deck size. -/
def buildActionPrompt (st : GameStateS) : String :=
  "Current game state:\n- Your hand: " ++ jsonCards st.computerHand
  ++ "\n- Your opponent\x27s hand size: " ++ toString st.playerHand.length
  ++ "\n- The stack: " ++ jsonCards st.stack
  ++ "\n- Your visible reserve: " ++ jsonPlacements st.computerVisibleReserve
  ++ "\n- Your opponent\x27s visible reserve: " ++ jsonPlacements st.playerVisibleReserve
  ++ "\n- Your hidden reserve size: " ++ toString st.computerHiddenReserve.length
  ++ "\n- Your opponent\x27s hidden reserve size: " ++ toString st.playerHiddenReserve.length
  ++ "\n- Deck size: " ++ toString st.deck.length
  ++ "\n\nTo play a card, use the \"play\" action and include the index(es) of the card(s) in your hand to play, starting at 0. To pick up the stack, use the \"stack\" action. To pick up a hidden card, use the \"hidden\" action with an index 0-2.\n\nWhat is your move?"

/-! ## Sorting and rank-sequence lemmas -/

theorem map_rank_sortByRank (l : List Card) :
    (sortByRank l).map (fun x => x.rank)
      = (l.map (fun x => x.rank)).insertionSort (fun a b => a ≤ b) := by
  refine List.eq_of_perm_of_sorted (r := fun a b : Nat => a ≤ b) ?_ ?_ ?_
  · exact ((List.perm_insertionSort rankLe l).map _).trans
      (List.perm_insertionSort _ _).symm
  · exact List.Pairwise.map _ (fun _ _ hab => hab) (List.sorted_insertionSort rankLe l)
  · exact List.sorted_insertionSort _ _

theorem map_rank_sortSByRank (l : List SCard) :
    (sortSByRank l).map (fun x => x.rank)
      = (l.map (fun x => x.rank)).insertionSort (fun a b => a ≤ b) := by
  refine List.eq_of_perm_of_sorted (r := fun a b : Nat => a ≤ b) ?_ ?_ ?_
  · exact ((List.perm_insertionSort rankLeS l).map _).trans
      (List.perm_insertionSort _ _).symm
  · exact List.Pairwise.map _ (fun _ _ hab => hab) (List.sorted_insertionSort rankLeS l)
  · exact List.sorted_insertionSort _ _

theorem isConsecutive_iff_chain (l : List Nat) :
    isConsecutive l = true ↔ List.Chain' (fun a b => b = a + 1) l := by
  induction l with
  | nil => simp [isConsecutive]
  | cons a t ih =>
    cases t with
    | nil => simp [isConsecutive]
    | cons b u => simp [isConsecutive, List.chain'_cons, ih]

/-- A list of at least two equal values cannot have strictly consecutive
sorted values. -/
theorem chain_succ_not_all_eq {rl : List Nat} (h2 : 2 ≤ rl.length)
    (hch : List.Chain' (fun a b => b = a + 1) (rl.insertionSort (fun a b => a ≤ b)))
    (r : Nat) (hall : ∀ x ∈ rl, x = r) : False := by
  have hperm : List.Perm (rl.insertionSort (fun a b => a ≤ b)) rl :=
    List.perm_insertionSort _ _
  have hlen : (rl.insertionSort (fun a b => a ≤ b)).length = rl.length := hperm.length_eq
  cases hsn : rl.insertionSort (fun a b => a ≤ b) with
  | nil => rw [hsn] at hlen; simp at hlen; omega
  | cons x t =>
    cases t with
    | nil => rw [hsn] at hlen; simp at hlen; omega
    | cons y u =>
      rw [hsn] at hch hperm
      have hx : x ∈ rl := hperm.subset (by simp)
      have hy : y ∈ rl := hperm.subset (by simp)
      have h1 : y = x + 1 := (List.chain'_cons.mp hch).1
      have hx2 := hall x hx
      have hy2 := hall y hy
      omega

/-- Lift a serialized card into a frontend card (deserialization creates
cards with `selected: false`). -/
def liftCard (c : SCard) : Card := ⟨c.suit, c.rank, false⟩


theorem all_rank_map_liftCard (l : List SCard) (r : Nat) :
    (l.map liftCard).all (fun x => x.rank == r) = l.all (fun x => x.rank == r) := by
  induction l with
  | nil => rfl
  | cons a t ih =>
    simp only [List.map_cons, List.all_cons, ih]
    rfl

theorem map_rank_map_liftCard (l : List SCard) :
    (l.map liftCard).map (fun x => x.rank) = l.map (fun x => x.rank) := by
  simp only [List.map_map]
  rfl

/-- C1: `validatePlacement` rejects the empty group, classifies a singleton
as `single`, classifies any group of 2+ cards of one shared rank as
`multiple` regardless of suit, classifies any group of 3+ cards whose
sorted ranks are strictly consecutive as `straight`, and rejects every
other shape; the server-side validator accepts exactly the groups the
frontend validator accepts. -/
theorem claim_C1_validatePlacement_classifies (cards : List Card) :
    (cards = [] → validatePlacement cards = none) ∧
    (cards.length = 1 → (validatePlacement cards).map Placement.ptype = some PType.single) ∧
    (2 ≤ cards.length → (∀ c1 ∈ cards, ∀ c2 ∈ cards, c1.rank = c2.rank) →
      (validatePlacement cards).map Placement.ptype = some PType.multiple) ∧
    (3 ≤ cards.length →
      List.Chain' (fun a b => b = a + 1)
        ((cards.map (fun x => x.rank)).insertionSort (fun a b => a ≤ b)) →
      (validatePlacement cards).map Placement.ptype = some PType.straight) ∧
    (cards.length ≠ 1 →
      ¬(2 ≤ cards.length ∧ ∀ c1 ∈ cards, ∀ c2 ∈ cards, c1.rank = c2.rank) →
      ¬(3 ≤ cards.length ∧ List.Chain' (fun a b => b = a + 1)
        ((cards.map (fun x => x.rank)).insertionSort (fun a b => a ≤ b))) →
      validatePlacement cards = none) ∧
    (∀ scards : List SCard,
      validatePlacementS scards = "valid" ↔ validatePlacement (scards.map liftCard) ≠ none) := by
  refine ⟨?_, ?_, ?_, ?_, ?_, ?_⟩
  · rintro rfl; rfl
  · intro h1
    cases cards with
    | nil => exfalso; simp only [List.length_nil] at h1; omega
    | cons c t =>
      cases t with
      | nil => rfl
      | cons c2 rest => exact absurd h1 (by simp)
  · intro h2 hall
    cases cards with
    | nil => exfalso; simp only [List.length_nil] at h2; omega
    | cons c t =>
      cases t with
      | nil => exfalso; simp only [List.length_cons, List.length_nil] at h2; omega
      | cons c2 rest =>
        have hb : (c :: c2 :: rest).all (fun x => x.rank == c.rank) = true := by
          simp only [List.all_eq_true, beq_iff_eq]
          intro x hx
          exact hall x hx c (List.mem_cons_self c _)
        simp [validatePlacement, hb]
  · intro h3 hch
    cases cards with
    | nil => exfalso; simp only [List.length_nil] at h3; omega
    | cons c t =>
      cases t with
      | nil => exfalso; simp only [List.length_cons, List.length_nil] at h3; omega
      | cons c2 rest =>
        have hcons : isConsecutive ((sortByRank (c :: c2 :: rest)).map (fun x => x.rank))
            = true := by
          rw [map_rank_sortByRank, isConsecutive_iff_chain]
          exact hch
        cases hball : (c :: c2 :: rest).all (fun x => x.rank == c.rank) with
        | true =>
          exfalso
          rw [List.all_eq_true] at hball
          refine @chain_succ_not_all_eq ((c :: c2 :: rest).map (fun x => x.rank)) ?_ ?_ c.rank ?_
          · simp
          · exact hch
          · intro x hx
            rw [List.mem_map] at hx
            obtain ⟨y, hy, rfl⟩ := hx
            have hxr := hball y hy
            rwa [beq_iff_eq] at hxr
        | false =>
          have hrest : rest ≠ [] := by
            cases rest with
            | nil => simp only [List.length_cons, List.length_nil] at h3; omega
            | cons x xs => simp
          simp [validatePlacement, hball, hcons, h3, hrest]
  · intro hne hnm hns
    cases cards with
    | nil => rfl
    | cons c t =>
      cases t with
      | nil => exact absurd rfl hne
      | cons c2 rest =>
        have hb : (c :: c2 :: rest).all (fun x => x.rank == c.rank) = false := by
          cases hball : (c :: c2 :: rest).all (fun x => x.rank == c.rank) with
          | false => rfl
          | true =>
            exfalso
            apply hnm
            refine ⟨by simp only [List.length_cons]; omega, ?_⟩
            rw [List.all_eq_true] at hball
            intro x hx y hy
            have hx2 := hball x hx
            have hy2 := hball y hy
            rw [beq_iff_eq] at hx2 hy2
            rw [hx2, hy2]
        rcases Nat.lt_or_ge (c :: c2 :: rest).length 3 with hlt | hge
        · have hrnil : rest = [] := by
            cases rest with
            | nil => rfl
            | cons x xs => exfalso; simp only [List.length_cons] at hlt; omega
          subst hrnil
          simp [validatePlacement, hb]
        · cases hcons : isConsecutive ((sortByRank (c :: c2 :: rest)).map (fun x => x.rank)) with
          | false => simp [validatePlacement, hb, hge, hcons]
          | true =>
            exfalso
            apply hns
            refine ⟨hge, ?_⟩
            rw [← isConsecutive_iff_chain, ← map_rank_sortByRank]
            exact hcons
  · intro scards
    cases scards with
    | nil => decide
    | cons c t =>
      cases t with
      | nil => simp [validatePlacementS, validatePlacement, liftCard]
      | cons c2 rest =>
        have hmapb : (liftCard c :: liftCard c2 :: rest.map liftCard).all
              (fun x => x.rank == (liftCard c).rank)
            = (c :: c2 :: rest).all (fun x => x.rank == c.rank) := by
          show ((c :: c2 :: rest).map liftCard).all (fun x => x.rank == c.rank)
              = (c :: c2 :: rest).all (fun x => x.rank == c.rank)
          exact all_rank_map_liftCard _ _
        have hconsEq : isConsecutive
              ((sortByRank (liftCard c :: liftCard c2 :: rest.map liftCard)).map
                (fun x => x.rank))
            = isConsecutive ((sortSByRank (c :: c2 :: rest)).map (fun x => x.rank)) := by
          rw [map_rank_sortByRank, map_rank_sortSByRank]
          congr 1
          congr 1
          show ((c :: c2 :: rest).map liftCard).map (fun x => x.rank)
              = (c :: c2 :: rest).map (fun x => x.rank)
          exact map_rank_map_liftCard _
        have hlift : (c :: c2 :: rest).map liftCard
            = liftCard c :: liftCard c2 :: rest.map liftCard := by simp
        rw [hlift]
        cases hsame : (c :: c2 :: rest).all (fun x => x.rank == c.rank) with
        | true =>
          have hb2 : (liftCard c :: liftCard c2 :: rest.map liftCard).all
              (fun x => x.rank == (liftCard c).rank) = true := by rw [hmapb, hsame]
          simp [validatePlacementS, validatePlacement, hsame, hb2]
        | false =>
          have hb2 : (liftCard c :: liftCard c2 :: rest.map liftCard).all
              (fun x => x.rank == (liftCard c).rank) = false := by rw [hmapb, hsame]
          by_cases h3 : 3 ≤ (c :: c2 :: rest).length
          · have h3b : 3 ≤ (liftCard c :: liftCard c2 :: rest.map liftCard).length := by
              have h3c := h3
              simp only [List.length_cons] at h3c
              simp only [List.length_cons, List.length_map]
              omega
            cases hcons : isConsecutive
                ((sortSByRank (c :: c2 :: rest)).map (fun x => x.rank)) with
            | true =>
              have hc2 : isConsecutive
                  ((sortByRank (liftCard c :: liftCard c2 :: rest.map liftCard)).map
                    (fun x => x.rank)) = true := by rw [hconsEq, hcons]
              simp [validatePlacementS, validatePlacement, hsame, hb2, h3, h3b, hcons, hc2]
            | false =>
              have hc2 : isConsecutive
                  ((sortByRank (liftCard c :: liftCard c2 :: rest.map liftCard)).map
                    (fun x => x.rank)) = false := by rw [hconsEq, hcons]
              simp [validatePlacementS, validatePlacement, hsame, hb2, h3, h3b, hcons, hc2]
          · have hrnil : rest = [] := by
              cases rest with
              | nil => rfl
              | cons x xs =>
                exfalso
                simp only [List.length_cons] at h3
                omega
            subst hrnil
            simp [validatePlacementS, validatePlacement, hsame, hb2]
            simp at hsame
            exact hsame

/-- Witness for C1: the specification's worked examples, obtained by
applying the classification theorem at concrete inputs. -/
theorem claim_C1_witness :
    (validatePlacement [c7h]).map Placement.ptype = some PType.single ∧
    (validatePlacement [c7h, c7s, c7c]).map Placement.ptype = some PType.multiple ∧
    (validatePlacement [c5d, c6d, c7s]).map Placement.ptype = some PType.straight ∧
    validatePlacement [c5d, c6d, c8s] = none ∧
    validatePlacementS [⟨Suit.diamonds, 5⟩, ⟨Suit.diamonds, 6⟩, ⟨Suit.spades, 7⟩] = "valid" :=
  ⟨(claim_C1_validatePlacement_classifies [c7h]).2.1 rfl,
   (claim_C1_validatePlacement_classifies [c7h, c7s, c7c]).2.2.1 (by decide) (by decide),
   (claim_C1_validatePlacement_classifies [c5d, c6d, c7s]).2.2.2.1 (by decide)
     (by rw [← isConsecutive_iff_chain]; decide),
   (claim_C1_validatePlacement_classifies [c5d, c6d, c8s]).2.2.2.2.1 (by decide) (by decide)
     (by
       rintro ⟨-, hch⟩
       rw [← isConsecutive_iff_chain] at hch
       exact absurd hch (by decide)),
   ((claim_C1_validatePlacement_classifies []).2.2.2.2.2
     [⟨Suit.diamonds, 5⟩, ⟨Suit.diamonds, 6⟩, ⟨Suit.spades, 7⟩]).mpr (by decide)⟩

/-! ## Claim C2: canPlayOnStack -/

theorem minRankCard_spec (l : List Card) : ∀ m : Card,
    minRankCard m l ∈ m :: l ∧ (minRankCard m l).rank ≤ m.rank ∧
      ∀ x ∈ l, (minRankCard m l).rank ≤ x.rank := by
  induction l with
  | nil => intro m; exact ⟨List.mem_cons_self _ _, Nat.le_refl _, by simp⟩
  | cons c rest ih =>
    intro m
    have key := ih (if c.rank < m.rank then c else m)
    obtain ⟨kmem, kle, kall⟩ := key
    have hle : (minRankCard (if c.rank < m.rank then c else m) rest).rank ≤ m.rank ∧
        (minRankCard (if c.rank < m.rank then c else m) rest).rank ≤ c.rank := by
      by_cases h : c.rank < m.rank
      · rw [if_pos h] at kle ⊢
        omega
      · rw [if_neg h] at kle ⊢
        omega
    refine ⟨?_, ?_, ?_⟩
    · show minRankCard m (c :: rest) ∈ m :: c :: rest
      rw [minRankCard]
      rcases List.mem_cons.mp kmem with h | h
      · by_cases hc : c.rank < m.rank
        · rw [if_pos hc] at h ⊢
          rw [h]
          simp
        · rw [if_neg hc] at h ⊢
          rw [h]
          simp
      · simp [h]
    · rw [minRankCard]; exact hle.1
    · intro x hx
      rw [minRankCard]
      rcases List.mem_cons.mp hx with h | h
      · rw [h]; exact hle.2
      · exact kall x h

/-- C2: a valid (hence non-empty) placement may always be played on an
empty stack; otherwise, with `top` the stack's last card and `low` the
minimum-rank card of the placement, the placement is always legal when
`low.rank` is 2 or 14, and otherwise legal exactly when
`low.rank ≥ top.rank`. -/
theorem claim_C2_canPlayOnStack (pl : Placement) (c : Card) (rest : List Card)
    (hc : pl.cards = c :: rest) :
    canPlayOnStack pl [] = true ∧
    (minRankCard c rest ∈ pl.cards ∧ ∀ x ∈ pl.cards, (minRankCard c rest).rank ≤ x.rank) ∧
    ∀ (s : List Card) (top : Card),
      (((minRankCard c rest).rank = 2 ∨ (minRankCard c rest).rank = 14) →
        canPlayOnStack pl (s ++ [top]) = true) ∧
      ((minRankCard c rest).rank ≠ 2 → (minRankCard c rest).rank ≠ 14 →
        (canPlayOnStack pl (s ++ [top]) = true ↔ top.rank ≤ (minRankCard c rest).rank)) := by
  have hmin := minRankCard_spec rest c
  refine ⟨rfl, ?_, ?_⟩
  · rw [hc]
    exact ⟨hmin.1, fun x hx => by
      rcases List.mem_cons.mp hx with h | h
      · rw [h]; exact hmin.2.1
      · exact hmin.2.2 x h⟩
  · intro s top
    have hne : (s ++ [top]).isEmpty = false := by simp
    have hlast : (s ++ [top]).getLast? = some top := List.getLast?_concat _
    constructor
    · intro h24
      rcases h24 with h2 | h14
      · simp [canPlayOnStack, hc, hne, hlast, h2]
      · simp [canPlayOnStack, hc, hne, hlast, h14]
    · intro hn2 hn14
      simp [canPlayOnStack, hc, hne, hlast, hn2, hn14]

/-- Witness for C2: the spec's Queen-King-Ace straight on a Jack-topped
stack, via the theorem at a concrete input. -/
theorem claim_C2_witness :
    canPlayOnStack ⟨[cQueen, cKing, cAce], PType.straight⟩ ([cTen] ++ [cJack]) = true :=
  (((claim_C2_canPlayOnStack ⟨[cQueen, cKing, cAce], PType.straight⟩ cQueen [cKing, cAce]
    rfl).2.2 [cTen] cJack).2 (by decide) (by decide)).mpr (by decide)

/-! ## Claim C9: oracle prompt noninterference -/

/-- C9: the query built for the decision oracle depends only on the
computer's hand, the human hand size, the stack, both visible reserves, the
hidden-reserve counts, and the deck size; two states agreeing on those (and
possibly differing in the human's hand cards, hidden-reserve cards, or deck
cards) produce identical prompts. -/
theorem claim_C9_prompt_noninterference (s1 s2 : GameStateS)
    (h1 : s1.computerHand = s2.computerHand)
    (h2 : s1.playerHand.length = s2.playerHand.length)
    (h3 : s1.stack = s2.stack)
    (h4 : s1.computerVisibleReserve = s2.computerVisibleReserve)
    (h5 : s1.playerVisibleReserve = s2.playerVisibleReserve)
    (h6 : s1.computerHiddenReserve.length = s2.computerHiddenReserve.length)
    (h7 : s1.playerHiddenReserve.length = s2.playerHiddenReserve.length)
    (h8 : s1.deck.length = s2.deck.length) :
    buildActionPrompt s1 = buildActionPrompt s2 := by
  unfold buildActionPrompt
  rw [h1, h2, h3, h4, h5, h6, h7, h8]

def stA : GameStateS :=
  ⟨[⟨Suit.clubs, 9⟩], [⟨Suit.hearts, 8⟩], [⟨Suit.hearts, 3⟩], [⟨Suit.spades, 2⟩], [],
   [⟨Suit.diamonds, 10⟩], [⟨Suit.hearts, 13⟩], [], GamePhase.computerTurn, []⟩

def stB : GameStateS :=
  ⟨[⟨Suit.spades, 11⟩], [⟨Suit.hearts, 8⟩], [⟨Suit.clubs, 4⟩], [⟨Suit.hearts, 5⟩], [],
   [⟨Suit.diamonds, 10⟩], [⟨Suit.diamonds, 6⟩], [], GamePhase.computerTurn, []⟩

/-- Witness for C9: two distinct states that differ only in information
invisible to the computer get the same prompt. -/
theorem claim_C9_witness : stA ≠ stB ∧ buildActionPrompt stA = buildActionPrompt stB :=
  ⟨by decide, claim_C9_prompt_noninterference stA stB rfl rfl rfl rfl rfl rfl rfl rfl⟩

/-! ## Claim C10: permutation invariance of placement classification -/

theorem sortByRank_map_rank_perm_eq {l1 l2 : List Card} (hp : List.Perm l1 l2) :
    (sortByRank l1).map (fun x => x.rank) = (sortByRank l2).map (fun x => x.rank) := by
  rw [map_rank_sortByRank, map_rank_sortByRank]
  refine List.eq_of_perm_of_sorted (r := fun a b : Nat => a ≤ b) ?_ ?_ ?_
  · exact (List.perm_insertionSort _ _).trans ((hp.map _).trans
      (List.perm_insertionSort _ _).symm)
  · exact List.sorted_insertionSort _ _
  · exact List.sorted_insertionSort _ _

/-- C10: `validatePlacement` is permutation-invariant in its classification
outcome — reordering the selected cards never changes whether they are
rejected or which kind (single, multiple, straight) they form. -/
theorem claim_C10_validatePlacement_perm_invariant (l1 l2 : List Card)
    (hp : List.Perm l1 l2) :
    (validatePlacement l1).map Placement.ptype = (validatePlacement l2).map Placement.ptype := by
  have hlen := hp.length_eq
  cases l1 with
  | nil =>
    cases l2 with
    | nil => rfl
    | cons b t2 => exfalso; simp only [List.length_nil, List.length_cons] at hlen; omega
  | cons a t1 =>
    cases l2 with
    | nil => exfalso; simp only [List.length_nil, List.length_cons] at hlen; omega
    | cons b t2 =>
      cases t1 with
      | nil =>
        cases t2 with
        | nil => rfl
        | cons b2 u2 =>
          exfalso
          simp only [List.length_cons, List.length_nil] at hlen
          omega
      | cons a2 u1 =>
        cases t2 with
        | nil =>
          exfalso
          simp only [List.length_cons, List.length_nil] at hlen
          omega
        | cons b2 u2 =>
          have hall : ((a :: a2 :: u1).all (fun x => x.rank == a.rank))
              = ((b :: b2 :: u2).all (fun x => x.rank == b.rank)) := by
            rw [Bool.eq_iff_iff, List.all_eq_true, List.all_eq_true]
            simp only [beq_iff_eq]
            constructor
            · intro h x hx
              have hb : b.rank = a.rank := h b (hp.mem_iff.mpr (List.mem_cons_self _ _))
              rw [h x (hp.mem_iff.mpr hx), hb]
            · intro h x hx
              have ha : a.rank = b.rank := h a (hp.mem_iff.mp (List.mem_cons_self _ _))
              rw [h x (hp.mem_iff.mp hx), ha]
          have hsort := sortByRank_map_rank_perm_eq hp
          have hlen2 : (a :: a2 :: u1).length = (b :: b2 :: u2).length := hlen
          cases h1 : (a :: a2 :: u1).all (fun x => x.rank == a.rank) with
          | true =>
            have h2 : (b :: b2 :: u2).all (fun x => x.rank == b.rank) = true := by
              rw [← hall, h1]
            simp [validatePlacement, h1, h2]
          | false =>
            have h2 : (b :: b2 :: u2).all (fun x => x.rank == b.rank) = false := by
              rw [← hall, h1]
            by_cases hl : 3 ≤ (a :: a2 :: u1).length
            · have hl2 : 3 ≤ (b :: b2 :: u2).length := hlen2 ▸ hl
              have h1u : 1 ≤ u1.length := by
                simp only [List.length_cons] at hl
                omega
              have h2u : 1 ≤ u2.length := by
                simp only [List.length_cons] at hl2
                omega
              cases hcons : isConsecutive ((sortByRank (a :: a2 :: u1)).map (fun x => x.rank))
                  with
              | true =>
                have hcons2 : isConsecutive
                    ((sortByRank (b :: b2 :: u2)).map (fun x => x.rank)) = true := by
                  rw [← hsort, hcons]
                simp [validatePlacement, h1, h2, h1u, h2u, hcons, hcons2]
              | false =>
                have hcons2 : isConsecutive
                    ((sortByRank (b :: b2 :: u2)).map (fun x => x.rank)) = false := by
                  rw [← hsort, hcons]
                simp [validatePlacement, h1, h2, h1u, h2u, hcons, hcons2]
            · have hl2 : ¬ 3 ≤ (b :: b2 :: u2).length := hlen2 ▸ hl
              simp only [List.length_cons] at hl hl2
              have hu1 : u1 = [] := by
                cases u1 with
                | nil => rfl
                | cons x xs => exfalso; simp only [List.length_cons] at hl; omega
              have hu2 : u2 = [] := by
                cases u2 with
                | nil => rfl
                | cons x xs => exfalso; simp only [List.length_cons] at hl2; omega
              subst hu1
              subst hu2
              simp [validatePlacement, h1, h2]

/-- Witness for C10: a concrete selection and a reordering of it classify
identically. -/
theorem claim_C10_witness :
    (validatePlacement [c5d, c7s, c6d]).map Placement.ptype
      = (validatePlacement [c6d, c5d, c7s]).map Placement.ptype :=
  claim_C10_validatePlacement_perm_invariant [c5d, c7s, c6d] [c6d, c5d, c7s] (by decide)

/-! ## Claim C4: win-condition evaluation -/

/-- A late-game position: the human's only remaining card is the selected
Ace of spades, both reserves and the deck are empty. -/
def sC4 : GState :=
  ⟨[], [⟨Suit.clubs, 9, false⟩], [⟨Suit.spades, 14, true⟩], [], [],
   [⟨Suit.clubs, 3, false⟩], [⟨Suit.hearts, 4, false⟩], [], [], GamePhase.playerTurn⟩

/-- C4 failing input: playing one's final card as an Ace-containing
placement resolves the placement but never evaluates the win condition —
the hand and both reserves are empty (the win predicate holds), yet the
phase remains player-turn instead of transitioning to game-over. -/
theorem claim_C4_ace_final_play_skips_win_check :
    (playSelectedCards sC4).playerHand = [] ∧
    (playSelectedCards sC4).playerVisibleReserve = [] ∧
    (playSelectedCards sC4).playerHiddenReserve = [] ∧
    (playSelectedCards sC4).gamePhase = GamePhase.playerTurn ∧
    (checkWinCondition (playSelectedCards sC4)).2 = true ∧
    (playSelectedCards sC4).gamePhase ≠ GamePhase.gameOver := by decide

/-! ## Claim C6: oracle retry loop -/

/-- The retry loop consumes at most its budget of 5 attempts. -/
theorem oracleGo_consumed_le (st : GameStateS) :
    ∀ (b : Nat) (pr : Option JValue) (le : String) (script : List Attempt),
      (oracleGo st b pr le script).2 ≤ b := by
  intro b
  induction b with
  | zero => intro pr le script; simp [oracleGo]
  | succ b ih =>
    intro pr le script
    cases script with
    | nil => simp [oracleGo]
    | cons att rest =>
      cases att with
      | fail err => exact Nat.succ_le_succ (ih _ _ _)
      | reply j =>
        simp only [oracleGo]
        split
        · exact Nat.succ_le_succ (ih _ _ _)
        · split
          · split
            · exact Nat.le_add_left 1 b
            · exact Nat.succ_le_succ (ih _ _ _)
          · split
            · split
              · exact Nat.succ_le_succ (ih _ _ _)
              · exact Nat.le_add_left 1 b
            · exact Nat.le_add_left 1 b

/-- A reply that passes both the structural and the semantic check
terminates the retry loop immediately: it is sent as the action after
exactly this one attempt, and the remaining script is never consulted. -/
theorem oracleGo_passing_reply_breaks (st : GameStateS) (b : Nat) (pr : Option JValue)
    (le : String) (j : JValue) (rest : List Attempt)
    (hschema : validateResponseSchema j = none)
    (hplay : jactionOf j = "play" →
      validatePlacementS (filterByJIndexes st.computerHand (jindexesOf j)) = "valid")
    (hhid : jactionOf j = "hidden" → st.computerHand = []) :
    oracleGo st (b + 1) pr le (Attempt.reply j :: rest) = (WsMsg.actionRes j, 1) := by
  simp only [oracleGo, hschema]
  by_cases hp : jactionOf j = "play"
  · have hv := hplay hp
    simp [hp, hv]
  · by_cases hh : jactionOf j = "hidden"
    · have h0 := hhid hh
      simp [hp, hh, h0]
    · simp [hp, hh]

/-- A schema-valid `play` reply whose indexes select an invalid placement:
the hand below holds a 3 and a 5, so indexes 0 and 1 denote neither a
multiple nor a straight. -/
def badPlayReply : JValue :=
  JValue.jobj [("action", JValue.jstr "play"),
               ("indexes", JValue.jarr [JValue.jnum 0, JValue.jnum 1]),
               ("whyMoveIsValid", JValue.jstr "three then five")]

def stC6 : GameStateS :=
  ⟨[], [], [⟨Suit.hearts, 8⟩], [], [], [⟨Suit.clubs, 3⟩, ⟨Suit.diamonds, 5⟩], [], [],
   GamePhase.computerTurn, []⟩

/-- C6 failing run: five consecutive semantically invalid `play` replies
exhaust the retry budget, yet because a semantic failure does not reset the
`parsedResponse` latch (unlike a schema failure), the handler sends the
last invalid action as `action-res` instead of the `action-error` report. -/
theorem claim_C6_exhaustion_sends_invalid_action :
    runOracle stC6 (List.replicate 5 (Attempt.reply badPlayReply))
        = (WsMsg.actionRes badPlayReply, 5) ∧
    validatePlacementS (filterByJIndexes stC6.computerHand (jindexesOf badPlayReply))
        ≠ "valid" := by
  constructor
  · rfl
  · decide

/-! ## Claim C7: hidden-reserve reveal guards -/

/-- A schema-valid `hidden` proposal. -/
def hiddenReply : JValue :=
  JValue.jobj [("action", JValue.jstr "hidden"),
               ("indexes", JValue.jarr [JValue.jnum 0]),
               ("whyMoveIsValid", JValue.jstr "nothing left in hand")]

/-- Computer hand empty but visible reserve still non-empty. -/
def stC7 : GameStateS :=
  ⟨[], [], [⟨Suit.hearts, 8⟩], [], [], [], [⟨Suit.spades, 4⟩],
   [⟨[⟨Suit.hearts, 9⟩], PType.single⟩], GamePhase.computerTurn, []⟩

/-- Counterexample to C7: in a state whose acting (computer) visible
reserve is non-empty, a proposed `hidden` action passes semantic validation
and is sent as the action — the server's check consults only the hand. -/
theorem claim_C7_counterexample :
    stC7.computerHand = [] ∧ stC7.computerVisibleReserve ≠ [] ∧
    runOracle stC7 [Attempt.reply hiddenReply] = (WsMsg.actionRes hiddenReply, 1) := by
  refine ⟨rfl, by decide, rfl⟩

/-- C7 amended: the computer's `hidden` proposal fails semantic validation
exactly when the computer hand is non-empty (the visible reserve is not
consulted); the human's click on a card outside their hand that is not the
stack top — in particular a hidden-reserve card — has no effect while the
hand or the visible reserve is non-empty. -/
theorem claim_C7_hidden_guard_amended (st : GameStateS) (b : Nat) (pr : Option JValue)
    (le : String) (j : JValue) (rest : List Attempt)
    (hschema : validateResponseSchema j = none) (hact : jactionOf j = "hidden") :
    (st.computerHand = [] →
      oracleGo st (b + 1) pr le (Attempt.reply j :: rest) = (WsMsg.actionRes j, 1)) ∧
    (st.computerHand ≠ [] →
      oracleGo st (b + 1) pr le (Attempt.reply j :: rest)
        = ((oracleGo st b (some j)
              "Tried to draw from hidden reserve with cards in hand" rest).1,
           (oracleGo st b (some j)
              "Tried to draw from hidden reserve with cards in hand" rest).2 + 1)) ∧
    (∀ (s : GState) (card : Card),
      s.playerHand.contains card = false →
      s.stack.getLast? ≠ some card →
      (s.playerHand ≠ [] ∨ s.playerVisibleReserve ≠ []) →
      handleCardClick card s = s) := by
  have hnp : ¬ jactionOf j = "play" := by rw [hact]; decide
  refine ⟨?_, ?_, ?_⟩
  · intro h0
    exact oracleGo_passing_reply_breaks st b pr le j rest hschema
      (fun hp => absurd hp hnp) (fun _ => h0)
  · intro hne
    have hlen : 0 < st.computerHand.length := by
      cases hh : st.computerHand with
      | nil => exact absurd hh hne
      | cons x xs => simp
    simp only [oracleGo, hschema]
    simp [hnp, hact, hlen]
  · intro s card hcont hstack hor
    have hmem : card ∉ s.playerHand := by
      intro hm
      have h2 : s.playerHand.contains card = true := List.elem_eq_true_of_mem hm
      rw [hcont] at h2
      cases h2
    have hcond : ¬(s.playerHand = [] ∧ s.deck = [] ∧
        s.playerVisibleReserve = [] ∧ card ∈ s.playerHiddenReserve) := by
      rintro ⟨hh, -, hv, -⟩
      rcases hor with h | h
      · exact h hh
      · exact h hv
    by_cases hph : s.gamePhase = GamePhase.playerTurn
    · simp [handleCardClick, hmem, hph, hstack, hcond]
    · cases hgp : s.gamePhase with
      | playerTurn => exact absurd hgp hph
      | selectingHiddenReserve => simp [handleCardClick, hmem, hgp]
      | selectingVisibleReserve => simp [handleCardClick, hmem, hgp]
      | computerTurn => simp [handleCardClick, hmem, hgp]
      | gameOver => simp [handleCardClick, hmem, hgp]

/-- Hand non-empty: the `hidden` proposal is rejected and retried. -/
def stC7b : GameStateS :=
  ⟨[], [], [⟨Suit.hearts, 8⟩], [], [], [⟨Suit.clubs, 3⟩], [⟨Suit.spades, 4⟩], [],
   GamePhase.computerTurn, []⟩

/-- A player-turn state with a non-empty hand and a hidden-reserve card to
click on. -/
def sC7h : GState :=
  ⟨[], [], [⟨Suit.hearts, 6, false⟩], [⟨Suit.spades, 4, false⟩], [],
   [⟨Suit.clubs, 3, false⟩], [⟨Suit.hearts, 4, false⟩], [], [], GamePhase.playerTurn⟩

/-- Witness for the amended C7 at concrete inputs. -/
theorem claim_C7_witness :
    runOracle stC7b [Attempt.reply hiddenReply]
        = (WsMsg.actionRes hiddenReply, 1) ∧
    handleCardClick ⟨Suit.spades, 4, false⟩ sC7h = sC7h := by
  constructor
  · have h := (claim_C7_hidden_guard_amended stC7b 4 none "" hiddenReply [] rfl rfl).2.1
      (by decide)
    exact h
  · exact (claim_C7_hidden_guard_amended stC7b 4 none "" hiddenReply [] rfl rfl).2.2
      sC7h ⟨Suit.spades, 4, false⟩ (by decide) (by decide) (Or.inl (by decide))

/-! ## Claim C3: Ace clears the stack and the same player continues -/

theorem validatePlacement_cards {cs : List Card} {pl : Placement}
    (h : validatePlacement cs = some pl) : pl.cards = cs := by
  cases cs with
  | nil => cases h
  | cons c t =>
    cases t with
    | nil =>
      simp only [validatePlacement] at h
      cases h
      rfl
    | cons c2 rest =>
      simp only [validatePlacement] at h
      split at h
      · cases h; rfl
      · split at h
        · split at h
          · cases h; rfl
          · cases h
        · cases h

theorem drawToMinimum_stack (p : Player) (s : GState) :
    (drawToMinimum p s).stack = s.stack := by
  cases p with
  | human =>
    simp only [drawToMinimum]
    split <;> simp [takeVisibleReserve]
  | computer =>
    simp only [drawToMinimum]
    split <;> simp [takeVisibleReserve]

theorem drawToMinimum_discard (p : Player) (s : GState) :
    (drawToMinimum p s).discard = s.discard := by
  cases p with
  | human =>
    simp only [drawToMinimum]
    split <;> simp [takeVisibleReserve]
  | computer =>
    simp only [drawToMinimum]
    split <;> simp [takeVisibleReserve]

theorem drawToMinimum_phase (p : Player) (s : GState) :
    (drawToMinimum p s).gamePhase = s.gamePhase := by
  cases p with
  | human =>
    simp only [drawToMinimum]
    split <;> simp [takeVisibleReserve]
  | computer =>
    simp only [drawToMinimum]
    split <;> simp [takeVisibleReserve]

/-- C3: whenever a legal Ace-containing placement is applied — by the human
(`playSelectedCards`), by the computer's `play` action, or by the
computer's revealed hidden card — the whole stack (old cards and the
just-played ones) moves to the discard pile, the stack becomes empty, and
the phase is unchanged, so the same player immediately acts again; since
the phase is preserved by every such application, Ace placements chain
until a non-Ace placement or pickup ends the sequence. -/
theorem claim_C3_ace_chain :
    (∀ (s : GState) (pl : Placement),
      validatePlacement (s.playerHand.filter (fun c => c.selected)) = some pl →
      canPlayOnStack pl s.stack = true →
      hasAce pl.cards = true →
      (playSelectedCards s).stack = [] ∧
      (playSelectedCards s).discard = s.discard ++ (s.stack ++ sortByRank pl.cards) ∧
      (playSelectedCards s).gamePhase = s.gamePhase) ∧
    (∀ (s : GState) (a : OAction) (pl : Placement),
      a.kind = ActKind.play →
      validatePlacement (filterByIndexes s.computerHand (a.indexes.getD [])) = some pl →
      hasAce pl.cards = true →
      (computerTurn a s).stack = [] ∧
      (computerTurn a s).discard = s.discard ++ (s.stack ++ sortByRank pl.cards) ∧
      (computerTurn a s).gamePhase = s.gamePhase) ∧
    (∀ (s : GState) (a : OAction) (card : Card),
      a.kind = ActKind.hidden →
      s.computerHiddenReserve[(a.indexes.getD []).headD 0]? = some card →
      canPlayOnStack ⟨[card], PType.single⟩ s.stack = true →
      card.rank = 14 →
      (computerTurn a s).stack = [] ∧
      (computerTurn a s).discard = s.discard ++ (s.stack ++ [card]) ∧
      (computerTurn a s).gamePhase = s.gamePhase) := by
  refine ⟨?_, ?_, ?_⟩
  · intro s pl hval hcan hace
    simp only [playSelectedCards, hval, hcan, hace, Bool.not_true, Bool.false_eq_true,
      if_false, if_true]
    refine ⟨?_, ?_, ?_⟩
    · simp [discardStack]
    · simp [discardStack, drawToMinimum_discard, drawToMinimum_stack, playOnStack]
    · simp [discardStack, drawToMinimum_phase, playOnStack]
  · intro s a pl hkind hval hace
    simp only [computerTurn, hkind, hval, hace, if_true]
    refine ⟨?_, ?_, ?_⟩
    · simp [discardStack, drawToMinimum_stack]
    · simp [discardStack, drawToMinimum_discard, drawToMinimum_stack, playOnStack]
    · simp [discardStack, drawToMinimum_phase, playOnStack]
  · intro s a card hkind hget hcan hrank
    have hbeq : (card.rank == 14) = true := by rw [hrank]; rfl
    simp only [computerTurn, hkind, hget, hcan, hbeq, if_true]
    refine ⟨?_, ?_, ?_⟩
    · simp [discardStack]
    · simp [discardStack, playOnStack, sortByRank, List.insertionSort]
    · simp [discardStack, playOnStack]

def sC3 : GState :=
  ⟨[⟨Suit.diamonds, 2, false⟩], [⟨Suit.clubs, 9, false⟩],
   [⟨Suit.spades, 14, true⟩, ⟨Suit.hearts, 5, false⟩], [⟨Suit.hearts, 2, false⟩], [],
   [⟨Suit.clubs, 3, false⟩], [⟨Suit.hearts, 4, false⟩], [], [], GamePhase.playerTurn⟩

def aC3 : OAction := ⟨ActKind.play, some [0]⟩

def sC3c : GState :=
  ⟨[⟨Suit.diamonds, 2, false⟩], [⟨Suit.clubs, 9, false⟩], [⟨Suit.hearts, 5, false⟩],
   [⟨Suit.hearts, 2, false⟩], [],
   [⟨Suit.clubs, 14, false⟩, ⟨Suit.clubs, 6, false⟩, ⟨Suit.clubs, 7, false⟩],
   [⟨Suit.hearts, 4, false⟩], [], [], GamePhase.computerTurn⟩

/-- Witness for C3: a selected Ace played by the human over a 9-topped
stack, and an Ace `play` action by the computer, each clear the stack to
discard and keep the phase on the acting player. -/
theorem claim_C3_witness :
    ((playSelectedCards sC3).stack = [] ∧
      (playSelectedCards sC3).discard
        = [] ++ ([⟨Suit.clubs, 9, false⟩] ++ sortByRank [⟨Suit.spades, 14, true⟩]) ∧
      (playSelectedCards sC3).gamePhase = GamePhase.playerTurn) ∧
    ((computerTurn aC3 sC3c).stack = [] ∧
      (computerTurn aC3 sC3c).discard
        = [] ++ ([⟨Suit.clubs, 9, false⟩] ++ sortByRank [⟨Suit.clubs, 14, false⟩]) ∧
      (computerTurn aC3 sC3c).gamePhase = GamePhase.computerTurn) :=
  ⟨claim_C3_ace_chain.1 sC3 ⟨[⟨Suit.spades, 14, true⟩], PType.single⟩ (by decide) (by decide)
      (by decide),
   claim_C3_ace_chain.2.1 sC3c aC3 ⟨[⟨Suit.clubs, 14, false⟩], PType.single⟩ rfl (by decide)
      (by decide)⟩

/-! ## Claim C8: empty hand absorbs the visible reserve in one step -/

/-- C8: when a hand is empty after the post-action refill (which requires
the deck to be exhausted) and the visible reserve is non-empty, the refill
step moves every card of every visible-reserve placement into that hand in
one step: the reserve becomes empty, the hand holds exactly those cards
(the player's hand sorted for display — a permutation, so no card is
gained or lost), and every other container and the phase are unchanged. -/
theorem claim_C8_empty_hand_absorbs_reserve :
    (∀ s : GState, s.playerHand = [] → s.deck = [] → s.playerVisibleReserve ≠ [] →
      drawToMinimum Player.human s
        = { s with playerHand := sortHand (reserveCards s.playerVisibleReserve),
                   playerVisibleReserve := [] }) ∧
    (∀ s : GState, s.computerHand = [] → s.deck = [] → s.computerVisibleReserve ≠ [] →
      drawToMinimum Player.computer s
        = { s with computerHand := reserveCards s.computerVisibleReserve,
                   computerVisibleReserve := [] }) ∧
    (∀ l : List Card, List.Perm (sortHand l) l) := by
  refine ⟨?_, ?_, fun l => List.perm_insertionSort _ _⟩
  · intro s hh hd _
    obtain ⟨dk, st, ph, phr, pvr, ch, chr, cvr, dis, gp⟩ := s
    simp only at hh hd
    subst hh
    subst hd
    simp [drawToMinimum, drawLoop, drawLoopGo, takeVisibleReserve]
  · intro s hh hd _
    obtain ⟨dk, st, ph, phr, pvr, ch, chr, cvr, dis, gp⟩ := s
    simp only at hh hd
    subst hh
    subst hd
    simp [drawToMinimum, drawLoop, drawLoopGo, takeVisibleReserve]

def sC8 : GState :=
  ⟨[], [⟨Suit.clubs, 9, false⟩], [], [⟨Suit.hearts, 2, false⟩],
   [⟨[⟨Suit.diamonds, 8, false⟩], PType.single⟩,
    ⟨[⟨Suit.clubs, 4, false⟩, ⟨Suit.hearts, 4, false⟩], PType.multiple⟩],
   [⟨Suit.clubs, 3, false⟩], [⟨Suit.hearts, 4, false⟩], [], [], GamePhase.playerTurn⟩

/-- Witness for C8 at a concrete state with two reserve placements. -/
theorem claim_C8_witness :
    drawToMinimum Player.human sC8
      = { sC8 with playerHand := sortHand (reserveCards sC8.playerVisibleReserve),
                   playerVisibleReserve := [] } :=
  claim_C8_empty_hand_absorbs_reserve.1 sC8 rfl rfl (by decide)

/-! ## Claim C5: card conservation -/

/-- The identity of a card: its suit and rank (UI flags and rendering
handles are not part of card identity). -/
def cardKey (c : Card) : Suit × Nat := (c.suit, c.rank)

/-- The multiset of card identities of a container. -/
def keyM (l : List Card) : Multiset (Suit × Nat) := (l.map cardKey : List (Suit × Nat))

/-- The multiset of all card identities across every container of a game
state. -/
def mcards (s : GState) : Multiset (Suit × Nat) :=
  keyM s.deck + keyM s.stack + keyM s.playerHand + keyM s.playerHiddenReserve +
  keyM (reserveCards s.playerVisibleReserve) + keyM s.computerHand +
  keyM s.computerHiddenReserve + keyM (reserveCards s.computerVisibleReserve) +
  keyM s.discard

theorem keyM_append (l l' : List Card) : keyM (l ++ l') = keyM l + keyM l' := by
  simp [keyM, Multiset.coe_add]

theorem keyM_perm {l l' : List Card} (h : List.Perm l l') : keyM l = keyM l' := by
  simp only [keyM]
  exact Multiset.coe_eq_coe.mpr (h.map _)

theorem keyM_map_of_key_eq (f : Card → Card) (hf : ∀ c, cardKey (f c) = cardKey c)
    (l : List Card) : keyM (l.map f) = keyM l := by
  simp only [keyM, List.map_map]
  congr 1
  exact List.map_congr_left (fun a _ => hf a)

theorem keyM_filter_split (p : Card → Bool) (l : List Card) :
    keyM (l.filter p) + keyM (l.filter (fun c => !p c)) = keyM l := by
  rw [← keyM_append]
  exact keyM_perm (List.filter_append_perm p l)

theorem keyM_sortByRank (l : List Card) : keyM (sortByRank l) = keyM l :=
  keyM_perm (List.perm_insertionSort _ _)

theorem keyM_sortHand (l : List Card) : keyM (sortHand l) = keyM l :=
  keyM_perm (List.perm_insertionSort _ _)

theorem keyM_clearFlags (l : List Card) : keyM (clearFlags l) = keyM l :=
  keyM_map_of_key_eq (fun c => { c with selected := false }) (fun _ => rfl) l

theorem reserveCards_append (r1 r2 : List Placement) :
    reserveCards (r1 ++ r2) = reserveCards r1 ++ reserveCards r2 := by
  simp [reserveCards]

theorem keyM_dropLast_getLast {l : List Card} {c : Card} (h : l.getLast? = some c) :
    keyM l.dropLast + keyM [c] = keyM l := by
  rw [← keyM_append]
  exact keyM_perm (by rw [List.dropLast_append_getLast? c h])

theorem keyM_nil : keyM [] = 0 := rfl

theorem reserveCards_nil : reserveCards [] = [] := rfl

theorem mcards_playOnStack (pl : Placement) (s : GState) :
    mcards (playOnStack pl s) = mcards s + keyM pl.cards := by
  simp only [mcards, playOnStack, keyM_append, keyM_sortByRank]
  refine Multiset.ext.mpr fun k => ?_
  simp only [Multiset.count_add]
  omega

theorem mcards_takeStack (p : Player) (s : GState) : mcards (takeStack p s) = mcards s := by
  have hmv : keyM (s.stack.map (fun c => { c with selected := false })) = keyM s.stack :=
    keyM_map_of_key_eq (fun c => { c with selected := false }) (fun _ => rfl) s.stack
  cases p with
  | human =>
    simp only [mcards, takeStack, keyM_append, keyM_sortHand, keyM_nil, hmv]
    refine Multiset.ext.mpr fun k => ?_
    simp only [Multiset.count_add, Multiset.count_zero]
    omega
  | computer =>
    simp only [mcards, takeStack, keyM_append, keyM_nil, hmv]
    refine Multiset.ext.mpr fun k => ?_
    simp only [Multiset.count_add, Multiset.count_zero]
    omega

theorem mcards_discardStack (s : GState) : mcards (discardStack s) = mcards s := by
  simp only [mcards, discardStack, keyM_append, keyM_nil]
  refine Multiset.ext.mpr fun k => ?_
  simp only [Multiset.count_add, Multiset.count_zero]
  omega

theorem mcards_takeVisibleReserve (p : Player) (s : GState) :
    mcards (takeVisibleReserve p s) = mcards s := by
  cases p with
  | human =>
    simp only [mcards, takeVisibleReserve, keyM_append, keyM_nil, reserveCards_nil]
    refine Multiset.ext.mpr fun k => ?_
    simp only [Multiset.count_add, Multiset.count_zero]
    omega
  | computer =>
    simp only [mcards, takeVisibleReserve, keyM_append, keyM_nil, reserveCards_nil]
    refine Multiset.ext.mpr fun k => ?_
    simp only [Multiset.count_add, Multiset.count_zero]
    omega

theorem keyM_drawLoopGo : ∀ (fuel : Nat) (hand deck : List Card),
    keyM (drawLoopGo fuel hand deck).1 + keyM (drawLoopGo fuel hand deck).2
      = keyM hand + keyM deck := by
  intro fuel
  induction fuel with
  | zero => intro hand deck; simp [drawLoopGo]
  | succ n ih =>
    intro hand deck
    simp only [drawLoopGo]
    split
    · rename_i h
      rw [ih, keyM_append]
      have h2 : keyM deck.dropLast + keyM [deck.getLast h.2] = keyM deck :=
        keyM_dropLast_getLast (List.getLast?_eq_getLast _ h.2)
      refine Multiset.ext.mpr fun k => ?_
      have h3 := congrArg (Multiset.count k) h2
      simp only [Multiset.count_add] at h3 ⊢
      omega
    · rfl

theorem mcards_drawToMinimum (p : Player) (s : GState) :
    mcards (drawToMinimum p s) = mcards s := by
  cases p with
  | human =>
    have hdl := keyM_drawLoopGo 3 s.playerHand s.deck
    simp only [drawToMinimum, drawLoop]
    split
    · simp only [mcards, takeVisibleReserve, keyM_append, keyM_sortHand, keyM_nil,
        reserveCards_nil]
      refine Multiset.ext.mpr fun k => ?_
      have h3 := congrArg (Multiset.count k) hdl
      simp only [Multiset.count_add, Multiset.count_zero] at h3 ⊢
      omega
    · simp only [mcards, keyM_append, keyM_sortHand]
      refine Multiset.ext.mpr fun k => ?_
      have h3 := congrArg (Multiset.count k) hdl
      simp only [Multiset.count_add] at h3 ⊢
      omega
  | computer =>
    have hdl := keyM_drawLoopGo 3 s.computerHand s.deck
    simp only [drawToMinimum, drawLoop]
    split
    · simp only [mcards, takeVisibleReserve, keyM_append, keyM_nil, reserveCards_nil]
      refine Multiset.ext.mpr fun k => ?_
      have h3 := congrArg (Multiset.count k) hdl
      simp only [Multiset.count_add, Multiset.count_zero] at h3 ⊢
      omega
    · simp only [mcards, keyM_append]
      refine Multiset.ext.mpr fun k => ?_
      have h3 := congrArg (Multiset.count k) hdl
      simp only [Multiset.count_add] at h3 ⊢
      omega

theorem mcards_checkWin (s : GState) : mcards (checkWinCondition s).1 = mcards s := by
  simp only [checkWinCondition]
  split
  · rfl
  · split
    · rfl
    · rfl

theorem mcards_startPlayerTurn (s : GState) : mcards (startPlayerTurn s) = mcards s := rfl

theorem mcards_startComputerTurn (s : GState) :
    mcards (startComputerTurn s) = mcards s :=
  (mcards_drawToMinimum Player.computer _).trans rfl

theorem mcards_finishComputerTurn (s : GState) :
    mcards (finishComputerTurn s) = mcards s := by
  simp only [finishComputerTurn]
  split
  · exact mcards_checkWin s
  · exact (mcards_startPlayerTurn _).trans (mcards_checkWin s)

theorem filter_contains_eq_of_sublist : ∀ {sub l : List Card}, List.Sublist sub l → l.Nodup →
    l.filter (fun c => sub.contains c) = sub := by
  intro sub l hs
  induction hs with
  | slnil => intro _; rfl
  | cons a hs ih =>
    intro hn
    rename_i l1 l2
    have hna : a ∉ l2 := (List.nodup_cons.mp hn).1
    have hca : l1.contains a = false := by
      cases hc : l1.contains a
      · rfl
      · exfalso
        have hm : a ∈ l1 := by
          have := List.elem_eq_mem a l1
          rw [List.contains] at hc
          rw [this] at hc
          exact of_decide_eq_true hc
        exact hna (hs.subset hm)
    rw [List.filter_cons, hca]
    simp only [Bool.false_eq_true, if_false]
    exact ih (List.nodup_cons.mp hn).2
  | cons₂ a hs ih =>
    intro hn
    rename_i l1 l2
    have hna : a ∉ l2 := (List.nodup_cons.mp hn).1
    have hca : (a :: l1).contains a = true := by
      rw [List.contains]
      exact List.elem_cons_self
    rw [List.filter_cons, hca]
    simp only [if_true]
    congr 1
    have hcg : ∀ c ∈ l2, ((a :: l1).contains c) = (l1.contains c) := by
      intro c hc
      have hne : ¬ c = a := fun he => hna (he ▸ hc)
      rw [List.contains, List.contains, List.elem_eq_mem, List.elem_eq_mem]
      simp [List.mem_cons, hne]
    rw [List.filter_congr hcg]
    exact ih (List.nodup_cons.mp hn).2

theorem perm_cons_eraseIdx : ∀ {l : List Card} {i : Nat} {c : Card},
    l[i]? = some c → List.Perm l (c :: l.eraseIdx i) := by
  intro l
  induction l with
  | nil => intro i c h; simp at h
  | cons a t ih =>
    intro i c h
    cases i with
    | zero =>
      simp only [List.getElem?_cons_zero, Option.some.injEq] at h
      subst h
      rfl
    | succ n =>
      simp only [List.getElem?_cons_succ] at h
      have hp := ih h
      exact (hp.cons a).trans (List.Perm.swap c a _)

theorem perm_filter_bne_of_nodup : ∀ {l : List Card} {a : Card}, l.Nodup → a ∈ l →
    List.Perm l (a :: l.filter (fun c => !(c == a))) := by
  intro l
  induction l with
  | nil => intro a _ ha; simp at ha
  | cons x t ih =>
    intro a hn ha
    rcases List.mem_cons.mp ha with h | h
    · subst h
      have hxt : a ∉ t := (List.nodup_cons.mp hn).1
      have : t.filter (fun c => !(c == a)) = t := by
        refine List.filter_eq_self.mpr fun c hc => ?_
        have : ¬ c = a := fun he => hxt (he ▸ hc)
        simp [this]
      rw [List.filter_cons]
      simp [this]
    · have hxa : ¬ x = a := by
        intro he
        subst he
        exact (List.nodup_cons.mp hn).1 h
      have hp := ih (List.nodup_cons.mp hn).2 h
      rw [List.filter_cons]
      have hcond : (!(x == a)) = true := by simp [hxa]
      rw [hcond]
      simp only [if_true]
      exact (hp.cons x).trans (List.Perm.swap a x _)

theorem filterByIndexes_sublist (l : List Card) (idxs : List Nat) :
    List.Sublist (filterByIndexes l idxs) l := by
  have h2 := (List.filter_sublist (p := fun p => idxs.contains p.1) l.enum).map Prod.snd
  rw [List.enum_map_snd] at h2
  exact h2

theorem mcards_play_remove (pl : Placement) (s : GState)
    (hcards : pl.cards = s.playerHand.filter (fun c => c.selected)) :
    mcards { playOnStack pl s with
             playerHand := (playOnStack pl s).playerHand.filter (fun c => !c.selected) }
      = mcards s := by
  simp only [mcards, playOnStack, keyM_append, keyM_sortByRank, hcards]
  have hsplit := keyM_filter_split (fun c => c.selected) s.playerHand
  refine Multiset.ext.mpr fun k => ?_
  have h3 := congrArg (Multiset.count k) hsplit
  simp only [Multiset.count_add] at h3 ⊢
  omega

theorem mcards_playSelectedCards (s : GState) :
    mcards (playSelectedCards s) = mcards s := by
  simp only [playSelectedCards]
  cases hval : validatePlacement (s.playerHand.filter (fun c => c.selected)) with
  | none => rfl
  | some pl =>
    have hcards := validatePlacement_cards hval
    cases hcan : canPlayOnStack pl s.stack with
    | false => simp only [hcan, Bool.not_false, if_true]
    | true =>
      simp only [hcan, Bool.not_true, Bool.false_eq_true, if_false]
      split
      · rw [mcards_discardStack, mcards_drawToMinimum, mcards_play_remove pl s hcards]
      · split
        · rw [mcards_checkWin, mcards_drawToMinimum, mcards_play_remove pl s hcards]
        · rw [mcards_startComputerTurn, mcards_checkWin, mcards_drawToMinimum,
            mcards_play_remove pl s hcards]

theorem keyM_cons (c : Card) (l : List Card) : keyM (c :: l) = keyM [c] + keyM l := rfl

theorem mcards_computerTurn (a : OAction) (s : GState)
    (hnodup : s.computerHand.Nodup ∧ s.computerHiddenReserve.Nodup)
    (hok : a.kind = ActKind.play →
      validatePlacement (filterByIndexes s.computerHand (a.indexes.getD [])) ≠ none) :
    mcards (computerTurn a s) = mcards s := by
  cases hk : a.kind with
  | stack =>
    simp only [computerTurn, hk]
    rw [mcards_finishComputerTurn, mcards_takeStack]
  | play =>
    simp only [computerTurn, hk]
    split
    · rename_i heq
      exact absurd heq (hok hk)
    · rename_i pl heq
      have hcards := validatePlacement_cards heq
      have hfe := filter_contains_eq_of_sublist
        (filterByIndexes_sublist s.computerHand (a.indexes.getD [])) hnodup.1
      have hkey : keyM (s.computerHand.filter
            (fun c => !((filterByIndexes s.computerHand (a.indexes.getD [])).contains c)))
          + keyM (filterByIndexes s.computerHand (a.indexes.getD []))
          = keyM s.computerHand := by
        have hsplit := keyM_filter_split
          (fun c => (filterByIndexes s.computerHand (a.indexes.getD [])).contains c)
          s.computerHand
        rw [hfe] at hsplit
        refine Multiset.ext.mpr fun k => ?_
        have h3 := congrArg (Multiset.count k) hsplit
        simp only [Multiset.count_add] at h3 ⊢
        omega
      have hmid : mcards { s with computerHand := (s.computerHand.filter
            (fun c => !((filterByIndexes s.computerHand (a.indexes.getD [])).contains c))) }
          + keyM pl.cards = mcards s := by
        simp only [mcards, hcards]
        refine Multiset.ext.mpr fun k => ?_
        have h3 := congrArg (Multiset.count k) hkey
        simp only [Multiset.count_add] at h3 ⊢
        omega
      split
      · rw [mcards_drawToMinimum, mcards_discardStack, mcards_playOnStack]
        exact hmid
      · rw [mcards_finishComputerTurn, mcards_drawToMinimum, mcards_playOnStack]
        exact hmid
  | hidden =>
    simp only [computerTurn, hk]
    split
    · rw [mcards_finishComputerTurn]
    · rename_i card heq
      have hkey : keyM (s.computerHiddenReserve.eraseIdx ((a.indexes.getD []).headD 0))
          + keyM [card] = keyM s.computerHiddenReserve := by
        have h1 := keyM_perm (perm_cons_eraseIdx heq)
        rw [keyM_cons] at h1
        refine Multiset.ext.mpr fun k => ?_
        have h3 := congrArg (Multiset.count k) h1
        simp only [Multiset.count_add] at h3 ⊢
        omega
      have hmid : mcards { s with computerHiddenReserve :=
            (s.computerHiddenReserve.eraseIdx ((a.indexes.getD []).headD 0)) }
          + keyM [card] = mcards s := by
        simp only [mcards]
        refine Multiset.ext.mpr fun k => ?_
        have h3 := congrArg (Multiset.count k) hkey
        simp only [Multiset.count_add] at h3 ⊢
        omega
      split
      · split
        · rw [mcards_discardStack, mcards_playOnStack]
          exact hmid
        · rw [mcards_finishComputerTurn, mcards_playOnStack]
          exact hmid
      · rw [mcards_finishComputerTurn, mcards_takeStack]
        simp only [mcards, keyM_append]
        refine Multiset.ext.mpr fun k => ?_
        have h3 := congrArg (Multiset.count k) hkey
        simp only [Multiset.count_add] at h3 ⊢
        omega

theorem mcards_toggleSelect (card : Card) (s : GState) :
    mcards (toggleSelect card s) = mcards s := by
  simp only [mcards, toggleSelect]
  rw [keyM_map_of_key_eq (fun c => if c = card then { c with selected := !c.selected } else c)
    (fun c => by by_cases h : c = card <;> simp [cardKey, h]) s.playerHand]

theorem mcards_handleCardClick (card : Card) (s : GState)
    (hnr : s.playerHiddenReserve.Nodup) :
    mcards (handleCardClick card s) = mcards s := by
  simp only [handleCardClick]
  split
  · split
    · exact mcards_toggleSelect card s
    · exact mcards_toggleSelect card s
    · exact mcards_toggleSelect card s
    · rfl
  · split
    · split
      · rw [mcards_startComputerTurn, mcards_takeStack]
      · split
        · rename_i hcond
          have hm : card ∈ s.playerHiddenReserve := by
            have h4 := hcond.2.2.2
            have he := List.elem_eq_mem card s.playerHiddenReserve
            rw [List.contains] at h4
            rw [he] at h4
            exact of_decide_eq_true h4
          have hperm := perm_filter_bne_of_nodup hnr hm
          have hkey : keyM [card]
              + keyM (s.playerHiddenReserve.filter (fun c => !(c == card)))
              = keyM s.playerHiddenReserve := by
            have h1 := keyM_perm hperm
            rw [keyM_cons] at h1
            exact h1.symm
          simp only [mcards, keyM_append]
          refine Multiset.ext.mpr fun k => ?_
          have h3 := congrArg (Multiset.count k) hkey
          simp only [Multiset.count_add] at h3 ⊢
          omega
        · rfl
    · rfl

theorem reserveCards_singleton (p : Placement) : reserveCards [p] = p.cards := by
  simp [reserveCards]

theorem mcards_cmvrStep (s : GState) : mcards (cmvrStep s) = mcards s := by
  simp only [cmvrStep]
  split
  · rfl
  · rename_i card heq
    rw [mcards_drawToMinimum]
    simp only [mcards, reserveCards_append, keyM_append, reserveCards_singleton]
    have h2 : keyM s.computerHand.dropLast + keyM [card] = keyM s.computerHand :=
      keyM_dropLast_getLast heq
    refine Multiset.ext.mpr fun k => ?_
    have h3 := congrArg (Multiset.count k) h2
    simp only [Multiset.count_add] at h3 ⊢
    omega

theorem mcards_computerMakesVisibleReserve (s : GState) :
    mcards (computerMakesVisibleReserve s) = mcards s := by
  simp only [computerMakesVisibleReserve]
  rw [mcards_cmvrStep, mcards_cmvrStep, mcards_cmvrStep]

theorem mcards_setPhase (s : GState) (g : GamePhase) :
    mcards { s with gamePhase := g } = mcards s := rfl

theorem mcards_completeHiddenReserveSelection (s : GState)
    (hres : s.playerHiddenReserve = []) :
    mcards (completeHiddenReserveSelection s) = mcards s := by
  simp only [completeHiddenReserveSelection]
  split
  · rfl
  · rw [mcards_setPhase, mcards_computerMakesVisibleReserve]
    simp only [mcards, keyM_clearFlags, hres, keyM_nil]
    have hsplit := keyM_filter_split (fun c => c.selected) s.playerHand
    refine Multiset.ext.mpr fun k => ?_
    have h3 := congrArg (Multiset.count k) hsplit
    simp only [Multiset.count_add, Multiset.count_zero] at h3 ⊢
    omega

/-! Frame facts used for the setup-phase invariant: which operations touch
the player's hidden reserve and which phases they can end in. -/

theorem drawToMinimum_phr (p : Player) (s : GState) :
    (drawToMinimum p s).playerHiddenReserve = s.playerHiddenReserve := by
  cases p with
  | human =>
    simp only [drawToMinimum]
    split <;> simp [takeVisibleReserve]
  | computer =>
    simp only [drawToMinimum]
    split <;> simp [takeVisibleReserve]

theorem takeStack_phr (p : Player) (s : GState) :
    (takeStack p s).playerHiddenReserve = s.playerHiddenReserve := by
  cases p <;> rfl

theorem takeStack_phase (p : Player) (s : GState) :
    (takeStack p s).gamePhase = s.gamePhase := by
  cases p <;> rfl

theorem startComputerTurn_phr (s : GState) :
    (startComputerTurn s).playerHiddenReserve = s.playerHiddenReserve :=
  (drawToMinimum_phr Player.computer _).trans rfl

theorem startComputerTurn_phase (s : GState) :
    (startComputerTurn s).gamePhase = GamePhase.computerTurn :=
  (drawToMinimum_phase Player.computer _).trans rfl

theorem checkWin_phr (s : GState) :
    (checkWinCondition s).1.playerHiddenReserve = s.playerHiddenReserve := by
  simp only [checkWinCondition]
  split
  · rfl
  · split
    · rfl
    · rfl

theorem checkWin_phase (s : GState) :
    (checkWinCondition s).1.gamePhase = GamePhase.gameOver ∨
      (checkWinCondition s).1.gamePhase = s.gamePhase := by
  simp only [checkWinCondition]
  split
  · exact Or.inl rfl
  · split
    · exact Or.inl rfl
    · exact Or.inr rfl

theorem finishComputerTurn_phr (s : GState) :
    (finishComputerTurn s).playerHiddenReserve = s.playerHiddenReserve := by
  simp only [finishComputerTurn]
  split
  · exact checkWin_phr s
  · exact checkWin_phr s

theorem finishComputerTurn_phase (s : GState) :
    (finishComputerTurn s).gamePhase = GamePhase.gameOver ∨
      (finishComputerTurn s).gamePhase = GamePhase.playerTurn := by
  simp only [finishComputerTurn]
  split
  · rename_i hw
    left
    simp only [checkWinCondition] at hw ⊢
    split
    · rfl
    · split
      · rfl
      · rename_i h1 h2
        rw [if_neg h1, if_neg h2] at hw
        cases hw
  · right
    rfl

theorem computerTurn_phr (a : OAction) (s : GState) :
    (computerTurn a s).playerHiddenReserve = s.playerHiddenReserve := by
  cases hk : a.kind with
  | stack =>
    simp only [computerTurn, hk]
    rw [finishComputerTurn_phr, takeStack_phr]
  | play =>
    simp only [computerTurn, hk]
    split
    · rfl
    · split
      · rw [drawToMinimum_phr]
        rfl
      · rw [finishComputerTurn_phr, drawToMinimum_phr]
        rfl
  | hidden =>
    simp only [computerTurn, hk]
    split
    · rw [finishComputerTurn_phr]
    · split
      · split
        · rfl
        · rw [finishComputerTurn_phr]
          rfl
      · rw [finishComputerTurn_phr, takeStack_phr]

theorem computerTurn_phase_inv (a : OAction) (s : GState) :
    (computerTurn a s).gamePhase = GamePhase.selectingHiddenReserve →
      s.gamePhase = GamePhase.selectingHiddenReserve := by
  cases hk : a.kind with
  | stack =>
    simp only [computerTurn, hk]
    intro hph
    rcases finishComputerTurn_phase (takeStack Player.computer s) with h | h <;>
      rw [hph] at h <;> cases h
  | play =>
    simp only [computerTurn, hk]
    split
    · intro hph
      exact hph
    · split
      · rw [drawToMinimum_phase]
        intro hph
        exact hph
      · intro hph
        rcases finishComputerTurn_phase _ with h | h <;> rw [hph] at h <;> cases h
  | hidden =>
    simp only [computerTurn, hk]
    split
    · intro hph
      rcases finishComputerTurn_phase s with h | h <;> rw [hph] at h <;> cases h
    · split
      · split
        · intro hph
          exact hph
        · intro hph
          rcases finishComputerTurn_phase _ with h | h <;> rw [hph] at h <;> cases h
      · intro hph
        rcases finishComputerTurn_phase _ with h | h <;> rw [hph] at h <;> cases h

theorem playSelectedCards_phr (s : GState) :
    (playSelectedCards s).playerHiddenReserve = s.playerHiddenReserve := by
  simp only [playSelectedCards]
  split
  · rfl
  · split
    · rfl
    · split
      · simp only [discardStack, drawToMinimum_phr, playOnStack]
      · split
        · simp only [checkWin_phr, drawToMinimum_phr, playOnStack]
        · simp only [startComputerTurn_phr, checkWin_phr, drawToMinimum_phr, playOnStack]

theorem playSelectedCards_phase_inv (s : GState) :
    (playSelectedCards s).gamePhase = GamePhase.selectingHiddenReserve →
      s.gamePhase = GamePhase.selectingHiddenReserve := by
  simp only [playSelectedCards]
  split
  · exact fun hph => hph
  · split
    · exact fun hph => hph
    · split
      · simp only [discardStack, drawToMinimum_phase, playOnStack]
        exact fun hph => hph
      · split
        · intro hph
          rcases checkWin_phase _ with hg | hg <;> rw [hph] at hg
          · cases hg
          · simp only [drawToMinimum_phase, playOnStack] at hg
            exact hg.symm
        · intro hph
          rw [startComputerTurn_phase] at hph
          cases hph

theorem cvrp_phr (s : GState) :
    (completeVisibleReservePlacement s).playerHiddenReserve = s.playerHiddenReserve := by
  simp only [completeVisibleReservePlacement]
  split
  · rfl
  · split
    · rfl
    · split
      · simp only [startPlayerTurn, drawToMinimum_phr]
      · simp only [drawToMinimum_phr]

theorem cvrp_phase_inv (s : GState) :
    (completeVisibleReservePlacement s).gamePhase = GamePhase.selectingHiddenReserve →
      s.gamePhase = GamePhase.selectingHiddenReserve := by
  simp only [completeVisibleReservePlacement]
  split
  · exact fun hph => hph
  · split
    · exact fun hph => hph
    · split
      · simp only [startPlayerTurn]
        intro hph
        cases hph
      · simp only [drawToMinimum_phase]
        exact fun hph => hph

theorem chrs_inv (s : GState) :
    (completeHiddenReserveSelection s).gamePhase = GamePhase.selectingHiddenReserve →
      completeHiddenReserveSelection s = s := by
  simp only [completeHiddenReserveSelection]
  split
  · exact fun _ => rfl
  · intro hph
    simp at hph

theorem mcards_completeVisibleReservePlacement (s : GState)
    (hn : (s.playerHand.map cardKey).Nodup) :
    mcards (completeVisibleReservePlacement s) = mcards s := by
  simp only [completeVisibleReservePlacement]
  split
  · rfl
  · rename_i pl heq
    split
    · rfl
    · have hcards := validatePlacement_cards heq
      have hsubl : List.Sublist (clearFlags pl.cards) (clearFlags s.playerHand) := by
        rw [hcards]
        exact List.Sublist.map _ (List.filter_sublist _)
      have hkeys : (clearFlags s.playerHand).map cardKey = s.playerHand.map cardKey := by
        simp only [clearFlags, List.map_map]
        rfl
      have hn2 : (clearFlags s.playerHand).Nodup := by
        apply List.Nodup.of_map cardKey
        rw [hkeys]
        exact hn
      have hfe := filter_contains_eq_of_sublist hsubl hn2
      have hkeyeq : keyM ((clearFlags s.playerHand).filter
            (fun c => !((clearFlags pl.cards).contains c)))
          + keyM (clearFlags pl.cards) = keyM s.playerHand := by
        have hsplit := keyM_filter_split (fun c => (clearFlags pl.cards).contains c)
          (clearFlags s.playerHand)
        rw [hfe] at hsplit
        have h2 : keyM (clearFlags s.playerHand) = keyM s.playerHand := keyM_clearFlags _
        refine Multiset.ext.mpr fun k => ?_
        have h3 := congrArg (Multiset.count k) hsplit
        have h4 := congrArg (Multiset.count k) h2
        simp only [Multiset.count_add] at h3 h4 ⊢
        omega
      split
      · rw [mcards_startPlayerTurn, mcards_drawToMinimum]
        simp only [mcards, reserveCards_append, keyM_append, reserveCards_singleton]
        refine Multiset.ext.mpr fun k => ?_
        have h3 := congrArg (Multiset.count k) hkeyeq
        simp only [Multiset.count_add] at h3 ⊢
        omega
      · rw [mcards_drawToMinimum]
        simp only [mcards, reserveCards_append, keyM_append, reserveCards_singleton]
        refine Multiset.ext.mpr fun k => ?_
        have h3 := congrArg (Multiset.count k) hkeyeq
        simp only [Multiset.count_add] at h3 ⊢
        omega

theorem mcards_handlePlayButton (s : GState)
    (hn : (s.playerHand.map cardKey).Nodup)
    (hres : s.gamePhase = GamePhase.selectingHiddenReserve → s.playerHiddenReserve = []) :
    mcards (handlePlayButton s) = mcards s := by
  simp only [handlePlayButton]
  split
  · rename_i hph
    exact mcards_completeHiddenReserveSelection s (hres hph)
  · exact mcards_completeVisibleReservePlacement s hn
  · exact mcards_playSelectedCards s
  · rfl

theorem stepFn_hiddenInv (a : GAction) (s : GState)
    (h : s.gamePhase = GamePhase.selectingHiddenReserve → s.playerHiddenReserve = []) :
    (stepFn a s).gamePhase = GamePhase.selectingHiddenReserve →
      (stepFn a s).playerHiddenReserve = [] := by
  cases a with
  | click card =>
    simp only [stepFn, handleCardClick]
    split
    · split
      · exact fun hph => h hph
      · exact fun hph => h hph
      · exact fun hph => h hph
      · exact h
    · split
      · split
        · intro hph
          rw [startComputerTurn_phase] at hph
          cases hph
        · split
          · intro hph
            simp only at hph
            rename_i hcont hphase hcond
            rw [hcont] at hph
            cases hph
          · exact h
      · exact h
  | playButton =>
    simp only [stepFn, handlePlayButton]
    split
    · intro hph
      have he := chrs_inv s hph
      rw [he] at hph ⊢
      exact h hph
    · rename_i hsv
      intro hph
      have h2 := cvrp_phase_inv s hph
      rw [hsv] at h2
      cases h2
    · rename_i hpt
      intro hph
      have h2 := playSelectedCards_phase_inv s hph
      rw [hpt] at h2
      cases h2
    · exact h
  | actionRes a =>
    simp only [stepFn]
    intro hph
    rw [computerTurn_phr]
    exact h (computerTurn_phase_inv a s hph)
  | actionError =>
    simp only [stepFn, startPlayerTurn]
    intro hph
    exact absurd hph (by decide)

theorem nodup_components (s : GState) (hn : Multiset.Nodup (mcards s)) :
    (s.playerHand.map cardKey).Nodup ∧ s.playerHiddenReserve.Nodup ∧
      s.computerHand.Nodup ∧ s.computerHiddenReserve.Nodup := by
  simp only [mcards] at hn
  have n1 := (Multiset.nodup_add.mp hn).1
  have n2 := Multiset.nodup_add.mp n1
  have n3 := Multiset.nodup_add.mp n2.1
  have n4 := Multiset.nodup_add.mp n3.1
  have n5 := Multiset.nodup_add.mp n4.1
  have n6 := Multiset.nodup_add.mp n5.1
  have n7 := Multiset.nodup_add.mp n6.1
  have hPH : (s.playerHand.map cardKey).Nodup := Multiset.coe_nodup.mp n7.2.1
  have hPHR : (s.playerHiddenReserve.map cardKey).Nodup := Multiset.coe_nodup.mp n6.2.1
  have hCH : (s.computerHand.map cardKey).Nodup := Multiset.coe_nodup.mp n4.2.1
  have hCHR : (s.computerHiddenReserve.map cardKey).Nodup := Multiset.coe_nodup.mp n3.2.1
  exact ⟨hPH, List.Nodup.of_map _ hPHR, List.Nodup.of_map _ hCH, List.Nodup.of_map _ hCHR⟩

theorem mcards_stepFn (a : GAction) (s : GState)
    (hn : Multiset.Nodup (mcards s))
    (hres : s.gamePhase = GamePhase.selectingHiddenReserve → s.playerHiddenReserve = [])
    (hok : stepOK a s) :
    mcards (stepFn a s) = mcards s := by
  obtain ⟨hPH, hPHR, hCH, hCHR⟩ := nodup_components s hn
  cases a with
  | click card => exact mcards_handleCardClick card s hPHR
  | playButton => exact mcards_handlePlayButton s hPH hres
  | actionRes act => exact mcards_computerTurn act s ⟨hCH, hCHR⟩ hok
  | actionError =>
    simp only [stepFn]
    rw [mcards_startPlayerTurn, mcards_takeStack]

theorem mcards_dealStep (s : GState) : mcards (dealStep s) = mcards s := by
  simp only [dealStep]
  split
  · rfl
  · rename_i c1 heq1
    split
    · simp only [mcards, keyM_append]
      have h2 := keyM_dropLast_getLast heq1
      refine Multiset.ext.mpr fun k => ?_
      have h3 := congrArg (Multiset.count k) h2
      simp only [Multiset.count_add] at h3 ⊢
      omega
    · rename_i c2 heq2
      simp only [mcards, keyM_append]
      have h2 := keyM_dropLast_getLast heq1
      have h4 := keyM_dropLast_getLast heq2
      refine Multiset.ext.mpr fun k => ?_
      have h3 := congrArg (Multiset.count k) h2
      have h5 := congrArg (Multiset.count k) h4
      simp only [Multiset.count_add] at h3 h5 ⊢
      omega

theorem mcards_dealInitialCards (s : GState) : mcards (dealInitialCards s) = mcards s := by
  simp only [dealInitialCards]
  have hfold : ∀ (n : Nat) (t : GState),
      mcards ((List.range n).foldl (fun st _ => dealStep st) t) = mcards t := by
    intro n
    induction n with
    | zero => intro t; rfl
    | succ m ih =>
      intro t
      rw [List.range_succ, List.foldl_append]
      simp only [List.foldl_cons, List.foldl_nil]
      rw [mcards_dealStep, ih]
  have hsort : ∀ t : GState,
      mcards { t with playerHand := sortHand t.playerHand } = mcards t := by
    intro t
    simp only [mcards, keyM_sortHand]
  rw [hsort, hfold]

theorem mcards_initState (deck0 : List Card) : mcards (initState deck0) = keyM deck0 := by
  simp only [initState]
  rw [mcards_dealInitialCards]
  simp only [mcards, keyM_nil, reserveCards_nil]
  simp

theorem dealStep_phr (s : GState) :
    (dealStep s).playerHiddenReserve = s.playerHiddenReserve := by
  simp only [dealStep]
  split
  · rfl
  · split
    · rfl
    · rfl

theorem initState_phr (deck0 : List Card) : (initState deck0).playerHiddenReserve = [] := by
  simp only [initState, dealInitialCards]
  have hfold : ∀ (n : Nat) (t : GState),
      ((List.range n).foldl (fun st _ => dealStep st) t).playerHiddenReserve
        = t.playerHiddenReserve := by
    intro n
    induction n with
    | zero => intro t; rfl
    | succ m ih =>
      intro t
      rw [List.range_succ, List.foldl_append]
      simp only [List.foldl_cons, List.foldl_nil]
      rw [dealStep_phr, ih]
  have hrec : ∀ t : GState,
      ({ t with playerHand := sortHand t.playerHand } : GState).playerHiddenReserve
        = t.playerHiddenReserve := fun _ => rfl
  rw [hrec, hfold]

/-- C5: starting from the 52 distinct cards created at deck initialization,
every sequence of game events (clicks, play-button presses, oracle action
results and the error fallback) whose oracle-delivered `play` actions are
semantically valid preserves the multiset of card identities spread over
the containers deck, stack, hands, hidden reserves, visible-reserve
placements and the discard pile: at every reachable point each of the 52
cards is in exactly one container — relocated, never duplicated or
destroyed. -/
theorem claim_C5_card_conservation (deck0 : List Card) (acts : List GAction)
    (hperm : List.Perm (deck0.map cardKey) (standardDeck.map cardKey))
    (htraj : trajOK (initState deck0) acts) :
    mcards (runGame deck0 acts) = keyM standardDeck ∧
    Multiset.Nodup (mcards (runGame deck0 acts)) ∧
    standardDeck.length = 52 ∧ (standardDeck.map cardKey).Nodup := by
  have hstdnodup : (standardDeck.map cardKey).Nodup := by decide
  have hkeyMstd : Multiset.Nodup (keyM standardDeck) := Multiset.coe_nodup.mpr hstdnodup
  have hinit : mcards (initState deck0) = keyM standardDeck := by
    rw [mcards_initState]
    exact Multiset.coe_eq_coe.mpr hperm
  have main : ∀ (l : List GAction) (t : GState),
      mcards t = keyM standardDeck →
      (t.gamePhase = GamePhase.selectingHiddenReserve → t.playerHiddenReserve = []) →
      trajOK t l →
      mcards (l.foldl (fun st a => stepFn a st) t) = keyM standardDeck := by
    intro l
    induction l with
    | nil => intro t ht _ _; exact ht
    | cons a rest ih =>
      intro t ht hres htr
      simp only [List.foldl_cons]
      have hnd : Multiset.Nodup (mcards t) := by rw [ht]; exact hkeyMstd
      have hstep := mcards_stepFn a t hnd hres htr.1
      exact ih (stepFn a t) (hstep.trans ht) (stepFn_hiddenInv a t hres) htr.2
  have hrun : mcards (runGame deck0 acts) = keyM standardDeck := by
    simp only [runGame]
    exact main acts (initState deck0) hinit (fun _ => initState_phr deck0) htraj
  refine ⟨hrun, ?_, by decide, hstdnodup⟩
  rw [hrun]
  exact hkeyMstd

/-- Witness for C5: a concrete three-event run (a play-button press during
setup, then the oracle-failure fallback, then a stack pickup action). -/
theorem claim_C5_witness :
    mcards (runGame standardDeck
        [GAction.playButton, GAction.actionError, GAction.actionRes ⟨ActKind.stack, none⟩])
      = keyM standardDeck ∧
    Multiset.Nodup (mcards (runGame standardDeck
        [GAction.playButton, GAction.actionError, GAction.actionRes ⟨ActKind.stack, none⟩])) ∧
    standardDeck.length = 52 ∧ (standardDeck.map cardKey).Nodup :=
  claim_C5_card_conservation standardDeck
    [GAction.playButton, GAction.actionError, GAction.actionRes ⟨ActKind.stack, none⟩]
    (List.Perm.refl _)
    (by simp [trajOK, stepOK])
